import Mathlib

/-!
Verification development for the ZRequest repository.

The deferred-value engine of `src/promise.js` is embedded shallowly as a
state machine over an explicit heap of promise objects.  A promise object
mirrors the fields set up by the constructor: `state` (0 pending,
1 fulfilled, 2 rejected), `value` and `reason` (`null` initially, an
argument list once settled) and the `handlers` list.  Because settling a
promise synchronously dispatches handlers, which may settle further
promises, the engine operations are defined by recursion on an explicit
fuel parameter; every theorem quantifies over (or supplies) enough fuel
for the dispatch cascade of its scenario, and exhausted fuel behaves as a
no-op, which no theorem relies on.

JS closures passed to `then`/`catch` are defunctionalised by `Cb`: an
arbitrary pure user callback, the bound `_resolve`/`_reject` of a promise
(as passed by `race` and by `all`'s `.catch(reject)`), and the per-index
closure of `all` that mutates the shared `result`/`completed` locals,
which are modelled as an `AllCell` in the heap.  The constructor's
executor is defunctionalised as the sequence of settle calls it performs
on its own promise, optionally followed by a synchronously raised error
(the `try`/`catch` of the constructor).

`src/fetch.js` is modelled only up to its synchronous, option-mutating
prefix: `getConnection`, the body serialisers and the network thread are
I/O plumbing outside the engine.  `request` is embedded as the function
from the incoming options record to the mutated record (plus the early
rejection reason when `opts.url` is falsy), and `fetch` as setting
`opts.url` before handing the record to `request`.
-/

namespace ZRequest

/-- JS runtime values handled by the engine: `undef` is `undefined`,
`num`/`str`/`arr` are ordinary data, and `pref id` is a reference to the
promise object stored at index `id` of the heap (the values for which
`instanceof Promise` is true). -/
inductive JSVal : Type where
  | undef : JSVal
  | num : Int → JSVal
  | str : String → JSVal
  | arr : List JSVal → JSVal
  | pref : Nat → JSVal

/-- Outcome of invoking a pure user callback: return a plain value
(possibly a reference to an existing promise), return a freshly
constructed `Promise.resolve(...vs)` or `Promise.reject(...vs)`, or raise
an error. -/
inductive CbRes : Type where
  | ret : JSVal → CbRes
  | newResolved : List JSVal → CbRes
  | newRejected : List JSVal → CbRes
  | throwE : JSVal → CbRes

/-- Defunctionalised callback functions passed to `then`/`catch`:
`user f` is an arbitrary user callback; `settleRes t`/`settleRej t` are
the bound `_resolve`/`_reject` of promise `t` (passed around by `race`
and by `all`'s `.catch(reject)`); `allCb cell idx target total` is the
per-index fulfillment closure of `all`, sharing the `result`/`completed`
locals stored in heap cell `cell`. -/
inductive Cb : Type where
  | user : (List JSVal → CbRes) → Cb
  | settleRes : Nat → Cb
  | settleRej : Nat → Cb
  | allCb : Nat → Nat → Nat → Nat → Cb

/-- A handler pushed by `then`: the two optional callbacks plus the index
`d2` of the derived promise whose bound `resolve`/`reject` the handler
closure captured. -/
structure Handler : Type where
  onFulfilled : Option Cb
  onRejected : Option Cb
  d2 : Nat

/-- A promise object, mirroring the fields initialised by the
constructor of `src/promise.js`: `state = 0`, `value = null`,
`reason = null`, `handlers = []`. -/
structure PromiseObj : Type where
  state : Nat
  value : Option (List JSVal)
  reason : Option (List JSVal)
  handlers : List Handler

/-- The freshly constructed promise object. -/
def pendingObj : PromiseObj := ⟨0, none, none, []⟩

/-- The shared local state of one `all` invocation: the `result` array
(sparse JS assignments are modelled by `Option`, holes reading back as
`undefined`) and the `completed` counter. -/
structure AllCell : Type where
  result : List (Option JSVal)
  completed : Nat

/-- The heap: all allocated promise objects (index = identity) and all
`all`-invocation cells. -/
structure Heap : Type where
  promises : List PromiseObj
  cells : List AllCell

/-- Read a promise object; unallocated indices read as a fresh pending
object (never relied upon: scenarios only dereference allocated ids). -/
def getP (h : Heap) (id : Nat) : PromiseObj := h.promises.getD id pendingObj

/-- Overwrite the promise object at `id`. -/
def setP (h : Heap) (id : Nat) (p : PromiseObj) : Heap :=
  { h with promises := h.promises.set id p }

/-- Allocate a fresh pending promise at index `h.promises.length`. -/
def allocP (h : Heap) : Heap := { h with promises := h.promises ++ [pendingObj] }

/-- A fresh `all` cell for `n` input promises: `result` all holes,
`completed = 0`. -/
def emptyCell (n : Nat) : AllCell := ⟨List.replicate n none, 0⟩

/-- Read an `all` cell. -/
def getCell (h : Heap) (c : Nat) : AllCell := h.cells.getD c (emptyCell 0)

/-- Overwrite an `all` cell. -/
def setCell (h : Heap) (c : Nat) (v : AllCell) : Heap :=
  { h with cells := h.cells.set c v }

/-- Allocate a fresh `all` cell for `n` inputs. -/
def allocCell (h : Heap) (n : Nat) : Heap := { h with cells := h.cells ++ [emptyCell n] }

/-- The bundle of mutually recursive engine operations at one fuel level:
`_resolve`, `_reject`, the two branches of the handler object built by
`then`, callback invocation, and `then` itself. -/
structure Engine : Type where
  resolveF : Heap → Nat → List JSVal → Heap
  rejectF : Heap → Nat → List JSVal → Heap
  runF : Heap → Handler → List JSVal → Heap
  runR : Heap → Handler → List JSVal → Heap
  invokeCbF : Heap → Cb → List JSVal → Heap × Except JSVal JSVal
  thenF : Heap → Nat → Option Cb → Option Cb → Heap × Nat

/-- Out-of-fuel engine: every operation leaves the heap unchanged. -/
def stubEngine : Engine where
  resolveF := fun h _ _ => h
  rejectF := fun h _ _ => h
  runF := fun h _ _ => h
  runR := fun h _ _ => h
  invokeCbF := fun h _ _ => (h, Except.ok JSVal.undef)
  thenF := fun h _ _ _ => (h, 0)

/-- The engine of `src/promise.js`, by recursion on fuel.
`resolveF`/`rejectF` embed `_resolve`/`_reject` (lines 20-35): no-op
unless `state` is 0, otherwise set `state` and `value`/`reason` and
dispatch every registered handler in order with the settlement arguments
(the source does not clear `handlers`, and neither does the model).
`runF`/`runR` embed the `onFulfilled`/`onRejected` branches of the
handler object built inside `then` (lines 46-67): invoke the optional
callback with the payload spread, chain to a returned promise via
`result.then(resolve, reject)`, otherwise settle the derived promise with
the original payload, and convert a raised error into a rejection of the
derived promise.  `invokeCbF` gives the defunctionalised callbacks their
meaning.  `thenF` embeds `then` (lines 44-81): construct the derived
promise, then either run the handler at once (settled receiver) or push
it onto `handlers` (pending receiver). -/
def engine : Nat → Engine
  | 0 => stubEngine
  | fuel + 1 =>
    let E := engine fuel
    { resolveF := fun h id args =>
        let p := getP h id
        if p.state ≠ 0 then h
        else
          let h1 := setP h id { p with state := 1, value := some args }
          p.handlers.foldl (fun hh hd => E.runF hh hd args) h1
      rejectF := fun h id args =>
        let p := getP h id
        if p.state ≠ 0 then h
        else
          let h1 := setP h id { p with state := 2, reason := some args }
          p.handlers.foldl (fun hh hd => E.runR hh hd args) h1
      runF := fun h hd value =>
        match hd.onFulfilled with
        | none => E.resolveF h hd.d2 value
        | some cb =>
          match E.invokeCbF h cb value with
          | (h1, Except.error e) => E.rejectF h1 hd.d2 [e]
          | (h1, Except.ok (JSVal.pref rid)) =>
            (E.thenF h1 rid (some (Cb.settleRes hd.d2)) (some (Cb.settleRej hd.d2))).1
          | (h1, Except.ok _) => E.resolveF h1 hd.d2 value
      runR := fun h hd reason =>
        match hd.onRejected with
        | none => E.rejectF h hd.d2 reason
        | some cb =>
          match E.invokeCbF h cb reason with
          | (h1, Except.error e) => E.rejectF h1 hd.d2 [e]
          | (h1, Except.ok (JSVal.pref rid)) =>
            (E.thenF h1 rid (some (Cb.settleRes hd.d2)) (some (Cb.settleRej hd.d2))).1
          | (h1, Except.ok _) => E.rejectF h1 hd.d2 reason
      invokeCbF := fun h cb args =>
        match cb with
        | Cb.user f =>
          match f args with
          | CbRes.ret v => (h, Except.ok v)
          | CbRes.newResolved vs =>
            (E.resolveF (allocP h) h.promises.length vs,
              Except.ok (JSVal.pref h.promises.length))
          | CbRes.newRejected vs =>
            (E.rejectF (allocP h) h.promises.length vs,
              Except.ok (JSVal.pref h.promises.length))
          | CbRes.throwE e => (h, Except.error e)
        | Cb.settleRes t => (E.resolveF h t args, Except.ok JSVal.undef)
        | Cb.settleRej t => (E.rejectF h t args, Except.ok JSVal.undef)
        | Cb.allCb cell idx target total =>
          let value := args.headD JSVal.undef
          let c := getCell h cell
          let res := c.result.set idx (some value)
          let comp := c.completed + 1
          let h1 := setCell h cell ⟨res, comp⟩
          if comp = total then
            (E.resolveF h1 target [JSVal.arr (res.map (fun o => o.getD JSVal.undef))],
              Except.ok JSVal.undef)
          else (h1, Except.ok JSVal.undef)
      thenF := fun h d1 onF onR =>
        let d2 := h.promises.length
        let h1 := allocP h
        let hd : Handler := ⟨onF, onR, d2⟩
        let p := getP h1 d1
        if p.state = 1 then (E.runF h1 hd (p.value.getD []), d2)
        else if p.state = 2 then (E.runR h1 hd (p.reason.getD []), d2)
        else (setP h1 d1 { p with handlers := p.handlers ++ [hd] }, d2) }

/-- `_resolve` of `src/promise.js` (lines 20-26), at the given fuel. -/
def _resolve (fuel : Nat) (h : Heap) (id : Nat) (args : List JSVal) : Heap :=
  (engine fuel).resolveF h id args

/-- `_reject` of `src/promise.js` (lines 29-35), at the given fuel. -/
def _reject (fuel : Nat) (h : Heap) (id : Nat) (args : List JSVal) : Heap :=
  (engine fuel).rejectF h id args

/-- The `onFulfilled` branch of the handler object built by `then`
(lines 47-56), at the given fuel. -/
def runFw (fuel : Nat) (h : Heap) (hd : Handler) (value : List JSVal) : Heap :=
  (engine fuel).runF h hd value

/-- The `onRejected` branch of the handler object built by `then`
(lines 57-66), at the given fuel. -/
def runRw (fuel : Nat) (h : Heap) (hd : Handler) (reason : List JSVal) : Heap :=
  (engine fuel).runR h hd reason

/-- Invocation of a defunctionalised callback, at the given fuel. -/
def invokeW (fuel : Nat) (h : Heap) (cb : Cb) (args : List JSVal) :
    Heap × Except JSVal JSVal :=
  (engine fuel).invokeCbF h cb args

/-- `then` of `src/promise.js` (lines 44-81): returns the heap after the
call together with the index of the derived promise. -/
def thenP (fuel : Nat) (h : Heap) (d1 : Nat) (onF onR : Option Cb) : Heap × Nat :=
  (engine fuel).thenF h d1 onF onR

/-- `catch` of `src/promise.js` (lines 89-91): `this.then(null, onRejected)`. -/
def catchP (fuel : Nat) (h : Heap) (d1 : Nat) (onR : Cb) : Heap × Nat :=
  thenP fuel h d1 none (some onR)

/-- One call performed by a constructor executor on its own promise. -/
inductive ExecStep : Type where
  | res : List JSVal → ExecStep
  | rej : List JSVal → ExecStep

/-- Run the settle calls of a defunctionalised executor against the
promise at `id`, in order. -/
def runExec (fuel : Nat) (h : Heap) (id : Nat) (steps : List ExecStep) : Heap :=
  steps.foldl
    (fun hh s =>
      match s with
      | ExecStep.res a => _resolve fuel hh id a
      | ExecStep.rej a => _reject fuel hh id a)
    h

/-- The constructor of `src/promise.js` (lines 6-17): initialise the
fields, run the executor exactly once, synchronously, with the bound
`_resolve`/`_reject`, and convert an error raised by the executor into
`this._reject(err)`.  Returns the heap and the new promise's index. -/
def newPromise (fuel : Nat) (h : Heap) (steps : List ExecStep) (thrown : Option JSVal) :
    Heap × Nat :=
  let id := h.promises.length
  let h1 := allocP h
  let h2 := runExec fuel h1 id steps
  match thrown with
  | some e => (_reject fuel h2 id [e], id)
  | none => (h2, id)

/-- `static resolve` of `src/promise.js` (lines 99-101):
`new Promise((resolve) => resolve(...args))`. -/
def staticResolve (fuel : Nat) (h : Heap) (args : List JSVal) : Heap × Nat :=
  newPromise fuel h [ExecStep.res args] none

/-- `static reject` of `src/promise.js` (lines 108-110):
`new Promise((_, reject) => reject(...args))`. -/
def staticReject (fuel : Nat) (h : Heap) (args : List JSVal) : Heap × Nat :=
  newPromise fuel h [ExecStep.rej args] none

/-- `static all` of `src/promise.js` (lines 119-137): construct the
result promise, allocate the shared `result`/`completed cell`, and for
each input promise in index order run
`promise.then(perIndexCallback).catch(reject)`. -/
def allP (fuel : Nat) (h : Heap) (ids : List Nat) : Heap × Nat :=
  let target := h.promises.length
  let cell := h.cells.length
  let total := ids.length
  let h1 := allocCell (allocP h) total
  let h2 := ids.enum.foldl
    (fun hh p =>
      let r1 := thenP fuel hh p.2 (some (Cb.allCb cell p.1 target total)) none
      (catchP fuel r1.1 r1.2 (Cb.settleRej target)).1)
    h1
  (h2, target)

/-- `static race` of `src/promise.js` (lines 145-151): construct the
result promise and for each input run
`promise.then(resolve).catch(reject)` with the result's bound settlers. -/
def raceP (fuel : Nat) (h : Heap) (ids : List Nat) : Heap × Nat :=
  let target := h.promises.length
  let h1 := allocP h
  let h2 := ids.foldl
    (fun hh pid =>
      let r1 := thenP fuel hh pid (some (Cb.settleRes target)) none
      (catchP fuel r1.1 r1.2 (Cb.settleRej target)).1)
    h1
  (h2, target)

/-- The promise at `id` is fulfilled with exactly the payload `vs`. -/
def fulfilledWith (h : Heap) (id : Nat) (vs : List JSVal) : Prop :=
  (getP h id).state = 1 ∧ (getP h id).value = some vs

/-- The promise at `id` is rejected with exactly the reasons `rs`. -/
def rejectedWith (h : Heap) (id : Nat) (rs : List JSVal) : Prop :=
  (getP h id).state = 2 ∧ (getP h id).reason = some rs

/-- The promise at `id` has settled (fulfilled or rejected). -/
def settled (h : Heap) (id : Nat) : Prop :=
  (getP h id).state = 1 ∨ (getP h id).state = 2

/-- Options record of `src/fetch.js`; a JS property that may be absent is
an `Option`, absent being `none`.  The request bodies (`body`, `form`,
`multipart`) belong to the unmodelled network thread. -/
structure ReqOpts : Type where
  url : Option String := none
  method : Option String := none
  timeout : Option Int := none
  readTimeout : Option Int := none
  followRedirect : Option Bool := none
  headers : Option (List (String × String)) := none
  json : Option Bool := none
  fullResponse : Option Bool := none
deriving DecidableEq

/-- The JS falsy test `!opts.url` for a string-valued property: absent or
the empty string. -/
def urlFalsy : Option String → Bool
  | none => true
  | some s => s == ""

/-- The synchronous prefix of `request` (`src/fetch.js` lines 141-150):
reject early when `opts.url` is falsy, otherwise overwrite `opts.method`
with its upper-cased, trimmed value (`"GET"` when absent) and fill the
defaulted options in place.  Returns the mutated record together with the
early rejection reason, if any; the network thread the function then
starts is outside the model. -/
def request (opts : ReqOpts) : ReqOpts × Option String :=
  if urlFalsy opts.url then (opts, some "No url parameter specified in #request")
  else
    ({ opts with
        method := some (match opts.method with
          | none => "GET"
          | some s => s.toUpper.trim)
        timeout := some (opts.timeout.getD 0)
        readTimeout := some (opts.readTimeout.getD (opts.timeout.getD 0))
        followRedirect := some (opts.followRedirect.getD true)
        headers := some (opts.headers.getD [])
        json := some (opts.json.getD false)
        fullResponse := some (opts.fullResponse.getD false) }, none)

/-- `fetch` (`src/fetch.js` lines 223-226): store the url into the
caller's options record, then construct the promise whose executor
immediately calls `request opts resolve reject`; the record returned is
the caller's options object after the synchronous part of the call. -/
def fetch (url : String) (opts : ReqOpts) : ReqOpts × Option String :=
  request { opts with url := some url }

/-- Scenario heap for the `all` ordering claim: three pending input
promises, as left by three constructors whose executors have not yet
settled them. -/
def allIn : Heap := ⟨[pendingObj, pendingObj, pendingObj], []⟩

/-- The heap after `all([A, B, C])` on `allIn`: the result promise at 3,
a handler chain `then(cb).catch(reject)` wired onto each input (derived
promises 4-9), and the shared `result`/`completed` cell. -/
def allWired : Heap :=
  ⟨[⟨0, none, none, [⟨some (Cb.allCb 0 0 3 3), none, 4⟩]⟩,
    ⟨0, none, none, [⟨some (Cb.allCb 0 1 3 3), none, 6⟩]⟩,
    ⟨0, none, none, [⟨some (Cb.allCb 0 2 3 3), none, 8⟩]⟩,
    pendingObj,
    ⟨0, none, none, [⟨none, some (Cb.settleRej 3), 5⟩]⟩,
    pendingObj,
    ⟨0, none, none, [⟨none, some (Cb.settleRej 3), 7⟩]⟩,
    pendingObj,
    ⟨0, none, none, [⟨none, some (Cb.settleRej 3), 9⟩]⟩,
    pendingObj],
   [⟨[none, none, none], 0⟩]⟩

/-- `allWired` after input B (index 1) fulfilled first, with the
two-value payload `[vb, vb2]`: its slot records only the first value. -/
def allStepB (vb vb2 : JSVal) : Heap :=
  ⟨[⟨0, none, none, [⟨some (Cb.allCb 0 0 3 3), none, 4⟩]⟩,
    ⟨1, some [vb, vb2], none, [⟨some (Cb.allCb 0 1 3 3), none, 6⟩]⟩,
    ⟨0, none, none, [⟨some (Cb.allCb 0 2 3 3), none, 8⟩]⟩,
    pendingObj,
    ⟨0, none, none, [⟨none, some (Cb.settleRej 3), 5⟩]⟩,
    pendingObj,
    ⟨1, some [vb, vb2], none, [⟨none, some (Cb.settleRej 3), 7⟩]⟩,
    ⟨1, some [vb, vb2], none, []⟩,
    ⟨0, none, none, [⟨none, some (Cb.settleRej 3), 9⟩]⟩,
    pendingObj],
   [⟨[none, some vb, none], 1⟩]⟩

/-- `allStepB` after input A (index 0) fulfilled second with `[va]`. -/
def allStepBA (va vb vb2 : JSVal) : Heap :=
  ⟨[⟨1, some [va], none, [⟨some (Cb.allCb 0 0 3 3), none, 4⟩]⟩,
    ⟨1, some [vb, vb2], none, [⟨some (Cb.allCb 0 1 3 3), none, 6⟩]⟩,
    ⟨0, none, none, [⟨some (Cb.allCb 0 2 3 3), none, 8⟩]⟩,
    pendingObj,
    ⟨1, some [va], none, [⟨none, some (Cb.settleRej 3), 5⟩]⟩,
    ⟨1, some [va], none, []⟩,
    ⟨1, some [vb, vb2], none, [⟨none, some (Cb.settleRej 3), 7⟩]⟩,
    ⟨1, some [vb, vb2], none, []⟩,
    ⟨0, none, none, [⟨none, some (Cb.settleRej 3), 9⟩]⟩,
    pendingObj],
   [⟨[some va, some vb, none], 2⟩]⟩

/-- `allStepBA` after input C (index 2) fulfilled last with `[vc]`: the
`completed` counter reaches 3, so the result promise at 3 fulfills with
the index-ordered array. -/
def allStepBAC (va vb vb2 vc : JSVal) : Heap :=
  ⟨[⟨1, some [va], none, [⟨some (Cb.allCb 0 0 3 3), none, 4⟩]⟩,
    ⟨1, some [vb, vb2], none, [⟨some (Cb.allCb 0 1 3 3), none, 6⟩]⟩,
    ⟨1, some [vc], none, [⟨some (Cb.allCb 0 2 3 3), none, 8⟩]⟩,
    ⟨1, some [JSVal.arr [va, vb, vc]], none, []⟩,
    ⟨1, some [va], none, [⟨none, some (Cb.settleRej 3), 5⟩]⟩,
    ⟨1, some [va], none, []⟩,
    ⟨1, some [vb, vb2], none, [⟨none, some (Cb.settleRej 3), 7⟩]⟩,
    ⟨1, some [vb, vb2], none, []⟩,
    ⟨1, some [vc], none, [⟨none, some (Cb.settleRej 3), 9⟩]⟩,
    ⟨1, some [vc], none, []⟩],
   [⟨[some va, some vb, some vc], 3⟩]⟩

/-- Scenario heap for the `race` claim: two pending input promises. -/
def raceIn : Heap := ⟨[pendingObj, pendingObj], []⟩

/-- The heap after `race([A, B])` on `raceIn`: the result promise at 2
and a `then(resolve).catch(reject)` chain on each input. -/
def raceWired : Heap :=
  ⟨[⟨0, none, none, [⟨some (Cb.settleRes 2), none, 3⟩]⟩,
    ⟨0, none, none, [⟨some (Cb.settleRes 2), none, 5⟩]⟩,
    pendingObj,
    ⟨0, none, none, [⟨none, some (Cb.settleRej 2), 4⟩]⟩,
    pendingObj,
    ⟨0, none, none, [⟨none, some (Cb.settleRej 2), 6⟩]⟩,
    pendingObj],
   []⟩

/-- `raceWired` after input A fulfilled first with payload `vs`: the
result promise at 2 is fulfilled with `vs`. -/
def raceResFirst (vs : List JSVal) : Heap :=
  ⟨[⟨1, some vs, none, [⟨some (Cb.settleRes 2), none, 3⟩]⟩,
    ⟨0, none, none, [⟨some (Cb.settleRes 2), none, 5⟩]⟩,
    ⟨1, some vs, none, []⟩,
    ⟨1, some vs, none, [⟨none, some (Cb.settleRej 2), 4⟩]⟩,
    ⟨1, some vs, none, []⟩,
    ⟨0, none, none, [⟨none, some (Cb.settleRej 2), 6⟩]⟩,
    pendingObj],
   []⟩

/-- `raceResFirst` after input B rejects later with reasons `rs`: B's
own chain settles, but the already-fulfilled result promise at 2 is
untouched. -/
def raceResThenRej (vs rs : List JSVal) : Heap :=
  ⟨[⟨1, some vs, none, [⟨some (Cb.settleRes 2), none, 3⟩]⟩,
    ⟨2, none, some rs, [⟨some (Cb.settleRes 2), none, 5⟩]⟩,
    ⟨1, some vs, none, []⟩,
    ⟨1, some vs, none, [⟨none, some (Cb.settleRej 2), 4⟩]⟩,
    ⟨1, some vs, none, []⟩,
    ⟨2, none, some rs, [⟨none, some (Cb.settleRej 2), 6⟩]⟩,
    ⟨2, none, some rs, []⟩],
   []⟩

/-- `raceWired` after input B rejected first with reasons `rs`: the
result promise at 2 is rejected with `rs`. -/
def raceRejFirst (rs : List JSVal) : Heap :=
  ⟨[⟨0, none, none, [⟨some (Cb.settleRes 2), none, 3⟩]⟩,
    ⟨2, none, some rs, [⟨some (Cb.settleRes 2), none, 5⟩]⟩,
    ⟨2, none, some rs, []⟩,
    ⟨0, none, none, [⟨none, some (Cb.settleRej 2), 4⟩]⟩,
    pendingObj,
    ⟨2, none, some rs, [⟨none, some (Cb.settleRej 2), 6⟩]⟩,
    ⟨2, none, some rs, []⟩],
   []⟩

/-- `raceRejFirst` after input A fulfills later with payload `vs`: A's
own chain settles, but the already-rejected result promise at 2 is
untouched. -/
def raceRejThenRes (rs vs : List JSVal) : Heap :=
  ⟨[⟨1, some vs, none, [⟨some (Cb.settleRes 2), none, 3⟩]⟩,
    ⟨2, none, some rs, [⟨some (Cb.settleRes 2), none, 5⟩]⟩,
    ⟨2, none, some rs, []⟩,
    ⟨1, some vs, none, [⟨none, some (Cb.settleRej 2), 4⟩]⟩,
    ⟨1, some vs, none, []⟩,
    ⟨2, none, some rs, [⟨none, some (Cb.settleRej 2), 6⟩]⟩,
    ⟨2, none, some rs, []⟩],
   []⟩

/-- The empty heap. -/
def emptyHeap : Heap := ⟨[], []⟩

/-- A heap holding a single fresh pending promise. -/
def pendOne : Heap := ⟨[pendingObj], []⟩

/-- Scenario heap for the settle-once counterexample to handler-list
clearing: promise 0 is pending with one registered handler whose derived
promise is 1. -/
def clearScenario : Heap :=
  ⟨[⟨0, none, none, [⟨none, none, 1⟩]⟩, pendingObj], []⟩

/-- Scenario heap holding one promise fulfilled with the single payload
value 3 (as produced by `Promise.resolve(3)`), for the flattening
example. -/
def flatScenario : Heap := ⟨[⟨1, some [JSVal.num 3], none, []⟩], []⟩

/-- The callback `v => Promise.resolve(v * 2)` of the flattening
example, defunctionalised: double the first argument and return a fresh
resolved promise. -/
def doubleCb : List JSVal → CbRes :=
  fun args =>
    CbRes.newResolved
      [match args.headD JSVal.undef with
        | JSVal.num m => JSVal.num (2 * m)
        | v => v]

/-- Scenario heap holding one promise rejected with the single reason
`"err"`, for the rejection-branch claim. -/
def rejScenario : Heap := ⟨[⟨2, none, some [JSVal.str "err"], []⟩], []⟩

/-- Unfolding lemma for `_resolve` at positive fuel. -/
theorem resolveStep (fuel : Nat) (h : Heap) (id : Nat) (args : List JSVal) :
    _resolve (fuel + 1) h id args =
      if (getP h id).state ≠ 0 then h
      else
        (getP h id).handlers.foldl (fun hh hd => runFw fuel hh hd args)
          (setP h id { getP h id with state := 1, value := some args }) := rfl

/-- Unfolding lemma for `_reject` at positive fuel. -/
theorem rejectStep (fuel : Nat) (h : Heap) (id : Nat) (args : List JSVal) :
    _reject (fuel + 1) h id args =
      if (getP h id).state ≠ 0 then h
      else
        (getP h id).handlers.foldl (fun hh hd => runRw fuel hh hd args)
          (setP h id { getP h id with state := 2, reason := some args }) := rfl

/-- Unfolding lemma for the handler fulfillment branch with an absent
callback: `undefined` is not a promise, so the derived promise is
resolved with the original payload. -/
theorem runFwNone (fuel : Nat) (h : Heap) (onR : Option Cb) (d2 : Nat) (v : List JSVal) :
    runFw (fuel + 1) h ⟨none, onR, d2⟩ v = _resolve fuel h d2 v := rfl

/-- Unfolding lemma for the handler fulfillment branch with a present
callback. -/
theorem runFwSome (fuel : Nat) (h : Heap) (cb : Cb) (onR : Option Cb) (d2 : Nat)
    (v : List JSVal) :
    runFw (fuel + 1) h ⟨some cb, onR, d2⟩ v =
      match invokeW fuel h cb v with
      | (h1, Except.error e) => _reject fuel h1 d2 [e]
      | (h1, Except.ok (JSVal.pref rid)) =>
        (thenP fuel h1 rid (some (Cb.settleRes d2)) (some (Cb.settleRej d2))).1
      | (h1, Except.ok _) => _resolve fuel h1 d2 v := rfl

/-- Unfolding lemma for the handler rejection branch with an absent
callback: the derived promise is rejected with the original reasons. -/
theorem runRwNone (fuel : Nat) (h : Heap) (onF : Option Cb) (d2 : Nat) (v : List JSVal) :
    runRw (fuel + 1) h ⟨onF, none, d2⟩ v = _reject fuel h d2 v := rfl

/-- Unfolding lemma for the handler rejection branch with a present
callback. -/
theorem runRwSome (fuel : Nat) (h : Heap) (onF : Option Cb) (cb : Cb) (d2 : Nat)
    (v : List JSVal) :
    runRw (fuel + 1) h ⟨onF, some cb, d2⟩ v =
      match invokeW fuel h cb v with
      | (h1, Except.error e) => _reject fuel h1 d2 [e]
      | (h1, Except.ok (JSVal.pref rid)) =>
        (thenP fuel h1 rid (some (Cb.settleRes d2)) (some (Cb.settleRej d2))).1
      | (h1, Except.ok _) => _reject fuel h1 d2 v := rfl

/-- Unfolding lemma for invoking a pure user callback. -/
theorem invokeWUser (fuel : Nat) (h : Heap) (f : List JSVal → CbRes) (args : List JSVal) :
    invokeW (fuel + 1) h (Cb.user f) args =
      match f args with
      | CbRes.ret v => (h, Except.ok v)
      | CbRes.newResolved vs =>
        (_resolve fuel (allocP h) h.promises.length vs,
          Except.ok (JSVal.pref h.promises.length))
      | CbRes.newRejected vs =>
        (_reject fuel (allocP h) h.promises.length vs,
          Except.ok (JSVal.pref h.promises.length))
      | CbRes.throwE e => (h, Except.error e) := rfl

/-- Unfolding lemma for invoking a bound `_resolve`. -/
theorem invokeWSettleRes (fuel : Nat) (h : Heap) (t : Nat) (args : List JSVal) :
    invokeW (fuel + 1) h (Cb.settleRes t) args =
      (_resolve fuel h t args, Except.ok JSVal.undef) := rfl

/-- Unfolding lemma for invoking a bound `_reject`. -/
theorem invokeWSettleRej (fuel : Nat) (h : Heap) (t : Nat) (args : List JSVal) :
    invokeW (fuel + 1) h (Cb.settleRej t) args =
      (_reject fuel h t args, Except.ok JSVal.undef) := rfl

/-- Unfolding lemma for invoking the per-index closure of `all`:
assign `result[idx]`, bump `completed`, and resolve the result promise
with the assembled array when every input has completed. -/
theorem invokeWAllCb (fuel : Nat) (h : Heap) (cell idx target total : Nat)
    (args : List JSVal) :
    invokeW (fuel + 1) h (Cb.allCb cell idx target total) args =
      (if (getCell h cell).completed + 1 = total then
        (_resolve fuel
          (setCell h cell
            ⟨(getCell h cell).result.set idx (some (args.headD JSVal.undef)),
              (getCell h cell).completed + 1⟩)
          target
          [JSVal.arr
            (((getCell h cell).result.set idx (some (args.headD JSVal.undef))).map
              (fun o => o.getD JSVal.undef))],
          Except.ok JSVal.undef)
      else
        (setCell h cell
          ⟨(getCell h cell).result.set idx (some (args.headD JSVal.undef)),
            (getCell h cell).completed + 1⟩,
          Except.ok JSVal.undef)) := rfl

/-- Unfolding lemma for `then` at positive fuel: allocate the derived
promise, then run the handler at once on a settled receiver, or push it
on a pending receiver. -/
theorem thenPStep (fuel : Nat) (h : Heap) (d1 : Nat) (onF onR : Option Cb) :
    thenP (fuel + 1) h d1 onF onR =
      (if (getP (allocP h) d1).state = 1 then
        (runFw fuel (allocP h) ⟨onF, onR, h.promises.length⟩
          ((getP (allocP h) d1).value.getD []), h.promises.length)
      else if (getP (allocP h) d1).state = 2 then
        (runRw fuel (allocP h) ⟨onF, onR, h.promises.length⟩
          ((getP (allocP h) d1).reason.getD []), h.promises.length)
      else
        (setP (allocP h) d1
          { getP (allocP h) d1 with
              handlers := (getP (allocP h) d1).handlers ++ [⟨onF, onR, h.promises.length⟩] },
          h.promises.length)) := rfl

/-- Setting then reading the same allocated index. -/
theorem getDSetSelf {α : Type} (l : List α) (i : Nat) (a d : α) (h : i < l.length) :
    (l.set i a).getD i d = a := by
  have h' : i < (l.set i a).length := by simpa using h
  rw [List.getD_eq_getElem _ _ h', List.getElem_set_self]

/-- Setting one index does not change reads at another. -/
theorem getDSetNe {α : Type} (l : List α) (i j : Nat) (a d : α) (hne : j ≠ i) :
    (l.set i a).getD j d = l.getD j d := by
  rcases Nat.lt_or_ge j l.length with hj | hj
  · have hj' : j < (l.set i a).length := by simpa using hj
    rw [List.getD_eq_getElem _ _ hj', List.getD_eq_getElem _ _ hj]
    exact List.getElem_set_ne (fun hEq => hne hEq.symm) hj'
  · rw [List.getD_eq_default _ _ (by simpa using hj), List.getD_eq_default _ _ hj]

/-- Reading past the end of the promise list gives the default pending
object. -/
theorem getPOfLe (h : Heap) (j : Nat) (hle : h.promises.length ≤ j) :
    getP h j = pendingObj :=
  List.getD_eq_default _ _ hle

/-- A promise whose state differs from the default is allocated. -/
theorem stateNeZeroLt (h : Heap) (id : Nat) (hs : (getP h id).state ≠ 0) :
    id < h.promises.length := by
  rcases Nat.lt_or_ge id h.promises.length with hlt | hge
  · exact hlt
  · exact absurd (by rw [getPOfLe h id hge]; rfl) hs

/-- A settled promise is allocated. -/
theorem settledLt (h : Heap) (id : Nat) (hs : settled h id) : id < h.promises.length := by
  rcases hs with h1 | h2
  · exact stateNeZeroLt h id (by rw [h1]; exact one_ne_zero)
  · exact stateNeZeroLt h id (by rw [h2]; exact two_ne_zero)

/-- A settled promise has nonzero state. -/
theorem settledNeZero (h : Heap) (id : Nat) (hs : settled h id) :
    (getP h id).state ≠ 0 := by
  rcases hs with h1 | h2
  · rw [h1]; exact one_ne_zero
  · rw [h2]; exact two_ne_zero

/-- Reading after `setP` at the written index. -/
theorem getPSetSelf (h : Heap) (id : Nat) (p : PromiseObj)
    (hlt : id < h.promises.length) : getP (setP h id p) id = p :=
  getDSetSelf _ _ _ _ hlt

/-- Reading after `setP` at another index. -/
theorem getPSetNe (h : Heap) (id j : Nat) (p : PromiseObj) (hne : j ≠ id) :
    getP (setP h id p) j = getP h j :=
  getDSetNe _ _ _ _ _ hne

/-- Allocation never changes the result of any read: the appended
object is exactly the out-of-range default. -/
theorem getPAlloc (h : Heap) (j : Nat) : getP (allocP h) j = getP h j := by
  rcases Nat.lt_or_ge j h.promises.length with hj | hj
  · exact List.getD_append _ _ _ _ hj
  · rw [getPOfLe h j hj]
    show (h.promises ++ [pendingObj]).getD j pendingObj = pendingObj
    rw [List.getD_append_right _ _ _ _ hj]
    rcases Nat.lt_or_ge (j - h.promises.length) 1 with hd | hd
    · interval_cases hz : j - h.promises.length
      rfl
    · exact List.getD_eq_default _ _ (by simpa using hd)

/-- Cell allocation does not change promise reads. -/
theorem getPAllocCell (h : Heap) (n : Nat) (j : Nat) :
    getP (allocCell h n) j = getP h j := rfl

/-- Cell writes do not change promise reads. -/
theorem getPSetCell (h : Heap) (c : Nat) (v : AllCell) (j : Nat) :
    getP (setCell h c v) j = getP h j := rfl

/-- `setP` preserves the number of allocated promises. -/
theorem lenSetP (h : Heap) (id : Nat) (p : PromiseObj) :
    (setP h id p).promises.length = h.promises.length := by
  simp [setP]

/-- `allocP` adds exactly one promise. -/
theorem lenAllocP (h : Heap) :
    (allocP h).promises.length = h.promises.length + 1 := by
  simp [allocP]

/-- A heap-to-heap step that preserves reads at `j` for settled heaps
extends to folds over any list. -/
theorem foldlFrozen {α : Type} (j : Nat) (f : Heap → α → Heap)
    (hf : ∀ hh a, settled hh j → getP (f hh a) j = getP hh j) :
    ∀ (l : List α) (h : Heap), settled h j → getP (l.foldl f h) j = getP h j := by
  intro l
  induction l with
  | nil => intro h _; rfl
  | cons a t ih =>
    intro h hs
    have h1 := hf h a hs
    have hs1 : settled (f h a) j := by
      simp only [settled] at hs ⊢
      rw [h1]
      exact hs
    rw [List.foldl_cons, ih (f h a) hs1, h1]

/-- The settle-once heart of the engine: no engine operation, at any
fuel, ever changes the object of a promise that has already settled.
This is what makes later `resolve`/`reject` calls, handler dispatch
cascades and combinator wiring unable to disturb a settled promise. -/
theorem engineFrozen (fuel : Nat) :
    (∀ h id args j, settled h j → getP (_resolve fuel h id args) j = getP h j)
    ∧ (∀ h id args j, settled h j → getP (_reject fuel h id args) j = getP h j)
    ∧ (∀ h hd v j, settled h j → getP (runFw fuel h hd v) j = getP h j)
    ∧ (∀ h hd v j, settled h j → getP (runRw fuel h hd v) j = getP h j)
    ∧ (∀ h cb args j, settled h j → getP (invokeW fuel h cb args).1 j = getP h j)
    ∧ (∀ h d1 a b j, settled h j → getP (thenP fuel h d1 a b).1 j = getP h j) := by
  induction fuel with
  | zero =>
    exact ⟨fun _ _ _ _ _ => rfl, fun _ _ _ _ _ => rfl, fun _ _ _ _ _ => rfl,
      fun _ _ _ _ _ => rfl, fun _ _ _ _ _ => rfl, fun _ _ _ _ _ _ => rfl⟩
  | succ n ih =>
    obtain ⟨ihRes, ihRej, ihRunF, ihRunR, ihInv, ihThen⟩ := ih
    have settledOf : ∀ (h h' : Heap) (j : Nat), getP h' j = getP h j → settled h j →
        settled h' j := by
      intro h h' j hEq hs
      simp only [settled] at hs ⊢
      rw [hEq]
      exact hs
    have hResolve : ∀ h id args j, settled h j →
        getP (_resolve (n + 1) h id args) j = getP h j := by
      intro h id args j hj
      rw [resolveStep]
      by_cases hid : (getP h id).state ≠ 0
      · rw [if_pos hid]
      · rw [if_neg hid]
        push_neg at hid
        have hji : j ≠ id := by
          intro hEq
          exact settledNeZero h j hj (hEq ▸ hid)
        have hset : getP (setP h id { getP h id with state := 1, value := some args }) j
            = getP h j := getPSetNe _ _ _ _ hji
        rw [foldlFrozen j _ (fun hh a hs => ihRunF hh a args j hs) _ _
          (settledOf h _ j hset hj), hset]
    have hReject : ∀ h id args j, settled h j →
        getP (_reject (n + 1) h id args) j = getP h j := by
      intro h id args j hj
      rw [rejectStep]
      by_cases hid : (getP h id).state ≠ 0
      · rw [if_pos hid]
      · rw [if_neg hid]
        push_neg at hid
        have hji : j ≠ id := by
          intro hEq
          exact settledNeZero h j hj (hEq ▸ hid)
        have hset : getP (setP h id { getP h id with state := 2, reason := some args }) j
            = getP h j := getPSetNe _ _ _ _ hji
        rw [foldlFrozen j _ (fun hh a hs => ihRunR hh a args j hs) _ _
          (settledOf h _ j hset hj), hset]
    have hInvoke : ∀ h cb args j, settled h j →
        getP (invokeW (n + 1) h cb args).1 j = getP h j := by
      intro h cb args j hj
      have hjA : settled (allocP h) j := settledOf h _ j (getPAlloc h j) hj
      cases cb with
      | user f =>
        rw [invokeWUser]
        cases hfa : f args with
        | ret v => rfl
        | newResolved vs =>
          show getP (_resolve n (allocP h) h.promises.length vs) j = getP h j
          rw [ihRes _ _ _ _ hjA, getPAlloc]
        | newRejected vs =>
          show getP (_reject n (allocP h) h.promises.length vs) j = getP h j
          rw [ihRej _ _ _ _ hjA, getPAlloc]
        | throwE e => rfl
      | settleRes t =>
        rw [invokeWSettleRes]
        exact ihRes _ _ _ _ hj
      | settleRej t =>
        rw [invokeWSettleRej]
        exact ihRej _ _ _ _ hj
      | allCb cell idx target total =>
        rw [invokeWAllCb]
        by_cases hc : (getCell h cell).completed + 1 = total
        · rw [if_pos hc]
          show getP (_resolve n (setCell h cell _) target _) j = getP h j
          rw [ihRes _ _ _ _ (settledOf h _ j (getPSetCell h cell _ j) hj), getPSetCell]
        · rw [if_neg hc]
          exact getPSetCell h cell _ j
    have hThen : ∀ h d1 a b j, settled h j → getP (thenP (n + 1) h d1 a b).1 j = getP h j := by
      intro h d1 a b j hj
      have hjA : settled (allocP h) j := settledOf h _ j (getPAlloc h j) hj
      rw [thenPStep]
      by_cases h1 : (getP (allocP h) d1).state = 1
      · rw [if_pos h1]
        show getP (runFw n (allocP h) _ _) j = getP h j
        rw [ihRunF _ _ _ _ hjA, getPAlloc]
      · rw [if_neg h1]
        by_cases h2 : (getP (allocP h) d1).state = 2
        · rw [if_pos h2]
          show getP (runRw n (allocP h) _ _) j = getP h j
          rw [ihRunR _ _ _ _ hjA, getPAlloc]
        · rw [if_neg h2]
          have hji : j ≠ d1 := by
            intro hEq
            subst hEq
            rcases settledOf h _ j (getPAlloc h j) hj with hs1 | hs2
            · exact h1 hs1
            · exact h2 hs2
          show getP (setP (allocP h) d1 _) j = getP h j
          rw [getPSetNe _ _ _ _ hji, getPAlloc]
    have hRunF : ∀ h hd v j, settled h j → getP (runFw (n + 1) h hd v) j = getP h j := by
      intro h hd v j hj
      obtain ⟨onF, onR, d2⟩ := hd
      cases onF with
      | none =>
        rw [runFwNone]
        exact ihRes h d2 v j hj
      | some cb =>
        rw [runFwSome]
        rcases hInvEq : invokeW n h cb v with ⟨h1, r⟩
        have hg : getP h1 j = getP h j := by
          have := ihInv h cb v j hj
          rw [hInvEq] at this
          exact this
        have hj1 : settled h1 j := settledOf h h1 j hg hj
        cases r with
        | error e =>
          show getP (_reject n h1 d2 [e]) j = getP h j
          rw [ihRej _ _ _ _ hj1, hg]
        | ok v' =>
          cases v' with
          | pref rid =>
            show getP (thenP n h1 rid _ _).1 j = getP h j
            rw [ihThen _ _ _ _ _ hj1, hg]
          | undef =>
            show getP (_resolve n h1 d2 v) j = getP h j
            rw [ihRes _ _ _ _ hj1, hg]
          | num m =>
            show getP (_resolve n h1 d2 v) j = getP h j
            rw [ihRes _ _ _ _ hj1, hg]
          | str s =>
            show getP (_resolve n h1 d2 v) j = getP h j
            rw [ihRes _ _ _ _ hj1, hg]
          | arr l =>
            show getP (_resolve n h1 d2 v) j = getP h j
            rw [ihRes _ _ _ _ hj1, hg]
    have hRunR : ∀ h hd v j, settled h j → getP (runRw (n + 1) h hd v) j = getP h j := by
      intro h hd v j hj
      obtain ⟨onF, onR, d2⟩ := hd
      cases onR with
      | none =>
        rw [runRwNone]
        exact ihRej h d2 v j hj
      | some cb =>
        rw [runRwSome]
        rcases hInvEq : invokeW n h cb v with ⟨h1, r⟩
        have hg : getP h1 j = getP h j := by
          have := ihInv h cb v j hj
          rw [hInvEq] at this
          exact this
        have hj1 : settled h1 j := settledOf h h1 j hg hj
        cases r with
        | error e =>
          show getP (_reject n h1 d2 [e]) j = getP h j
          rw [ihRej _ _ _ _ hj1, hg]
        | ok v' =>
          cases v' with
          | pref rid =>
            show getP (thenP n h1 rid _ _).1 j = getP h j
            rw [ihThen _ _ _ _ _ hj1, hg]
          | undef =>
            show getP (_reject n h1 d2 v) j = getP h j
            rw [ihRej _ _ _ _ hj1, hg]
          | num m =>
            show getP (_reject n h1 d2 v) j = getP h j
            rw [ihRej _ _ _ _ hj1, hg]
          | str s =>
            show getP (_reject n h1 d2 v) j = getP h j
            rw [ihRej _ _ _ _ hj1, hg]
          | arr l =>
            show getP (_reject n h1 d2 v) j = getP h j
            rw [ihRej _ _ _ _ hj1, hg]
    exact ⟨hResolve, hReject, hRunF, hRunR, hInvoke, hThen⟩

/-- A `resolve` call on a settled promise is a no-op on the whole heap
(the guard `if (this.state) return`). -/
theorem resolveSettled (fuel : Nat) (h : Heap) (id : Nat) (args : List JSVal)
    (hs : (getP h id).state ≠ 0) : _resolve fuel h id args = h := by
  cases fuel with
  | zero => rfl
  | succ n => rw [resolveStep, if_pos hs]

/-- A `reject` call on a settled promise is a no-op on the whole heap. -/
theorem rejectSettled (fuel : Nat) (h : Heap) (id : Nat) (args : List JSVal)
    (hs : (getP h id).state ≠ 0) : _reject fuel h id args = h := by
  cases fuel with
  | zero => rfl
  | succ n => rw [rejectStep, if_pos hs]

/-- Resolving a pending promise settles exactly its own object: state
becomes 1, the payload is stored, and `reason` and `handlers` are left
as they were (the source never clears the handler list). -/
theorem resolvePendingRecord (fuel : Nat) (h : Heap) (id : Nat) (args : List JSVal)
    (hp : (getP h id).state = 0) (hlt : id < h.promises.length) :
    getP (_resolve (fuel + 1) h id args) id
      = { getP h id with state := 1, value := some args } := by
  rw [resolveStep, if_neg (by simp [hp])]
  have hset : getP (setP h id { getP h id with state := 1, value := some args }) id
      = { getP h id with state := 1, value := some args } := getPSetSelf _ _ _ hlt
  have hsettled : settled (setP h id { getP h id with state := 1, value := some args }) id := by
    simp only [settled]
    rw [hset]
    left
    rfl
  rw [foldlFrozen id _ (fun hh a hs => (engineFrozen fuel).2.2.1 hh a args id hs) _ _
    hsettled, hset]

/-- Rejecting a pending promise settles exactly its own object. -/
theorem rejectPendingRecord (fuel : Nat) (h : Heap) (id : Nat) (args : List JSVal)
    (hp : (getP h id).state = 0) (hlt : id < h.promises.length) :
    getP (_reject (fuel + 1) h id args) id
      = { getP h id with state := 2, reason := some args } := by
  rw [rejectStep, if_neg (by simp [hp])]
  have hset : getP (setP h id { getP h id with state := 2, reason := some args }) id
      = { getP h id with state := 2, reason := some args } := getPSetSelf _ _ _ hlt
  have hsettled : settled (setP h id { getP h id with state := 2, reason := some args }) id := by
    simp only [settled]
    rw [hset]
    right
    rfl
  rw [foldlFrozen id _ (fun hh a hs => (engineFrozen fuel).2.2.2.1 hh a args id hs) _ _
    hsettled, hset]

/-- Resolving a pending promise with no registered handlers just writes
its own object. -/
theorem resolvePendingNH (fuel : Nat) (h : Heap) (id : Nat) (args : List JSVal)
    (hp : (getP h id).state = 0) (hnh : (getP h id).handlers = []) :
    _resolve (fuel + 1) h id args
      = setP h id { getP h id with state := 1, value := some args } := by
  rw [resolveStep, if_neg (by simp [hp]), hnh, List.foldl_nil]

/-- Rejecting a pending promise with no registered handlers just writes
its own object. -/
theorem rejectPendingNH (fuel : Nat) (h : Heap) (id : Nat) (args : List JSVal)
    (hp : (getP h id).state = 0) (hnh : (getP h id).handlers = []) :
    _reject (fuel + 1) h id args
      = setP h id { getP h id with state := 2, reason := some args } := by
  rw [rejectStep, if_neg (by simp [hp]), hnh, List.foldl_nil]

/-- Resolving a fresh (never touched) promise. -/
theorem resolveFresh (fuel : Nat) (h : Heap) (id : Nat) (args : List JSVal)
    (hp : getP h id = pendingObj) :
    _resolve (fuel + 1) h id args = setP h id ⟨1, some args, none, []⟩ := by
  rw [resolvePendingNH fuel h id args (by rw [hp]; rfl) (by rw [hp]; rfl), hp]
  rfl

/-- Rejecting a fresh (never touched) promise. -/
theorem rejectFresh (fuel : Nat) (h : Heap) (id : Nat) (args : List JSVal)
    (hp : getP h id = pendingObj) :
    _reject (fuel + 1) h id args = setP h id ⟨2, none, some args, []⟩ := by
  rw [rejectPendingNH fuel h id args (by rw [hp]; rfl) (by rw [hp]; rfl), hp]
  rfl

/-- `then` on an already-fulfilled receiver runs the fulfillment branch
of the fresh handler at once, against the stored payload. -/
theorem thenPFulfilled (fuel : Nat) (h : Heap) (d1 : Nat) (vs : List JSVal)
    (onF onR : Option Cb) (h1 : (getP h d1).state = 1) (h2 : (getP h d1).value = some vs) :
    thenP (fuel + 1) h d1 onF onR
      = (runFw fuel (allocP h) ⟨onF, onR, h.promises.length⟩ vs, h.promises.length) := by
  rw [thenPStep, getPAlloc, h2]
  simp [h1]

/-- `then` on an already-rejected receiver runs the rejection branch of
the fresh handler at once, against the stored reasons. -/
theorem thenPRejected (fuel : Nat) (h : Heap) (d1 : Nat) (rs : List JSVal)
    (onF onR : Option Cb) (h1 : (getP h d1).state = 2) (h2 : (getP h d1).reason = some rs) :
    thenP (fuel + 1) h d1 onF onR
      = (runRw fuel (allocP h) ⟨onF, onR, h.promises.length⟩ rs, h.promises.length) := by
  rw [thenPStep, getPAlloc, h2]
  simp [h1]

/-- `then` on a pending receiver pushes the fresh handler onto the
receiver's handler list. -/
theorem thenPPending (fuel : Nat) (h : Heap) (d1 : Nat) (onF onR : Option Cb)
    (h0 : (getP h d1).state = 0) :
    thenP (fuel + 1) h d1 onF onR
      = (setP (allocP h) d1
          { getP h d1 with
              handlers := (getP h d1).handlers ++ [⟨onF, onR, h.promises.length⟩] },
          h.promises.length) := by
  rw [thenPStep, getPAlloc]
  simp [h0]

/-- Chaining `result.then(resolve, reject)` onto an already-fulfilled
returned promise forwards its payload to the captured `resolve` and then
(redundantly, a settle-once no-op in the claims' scenarios) resolves the
chain's own derived promise. -/
theorem chainFulfilled (g : Nat) (h1 : Heap) (rid t : Nat) (ws : List JSVal)
    (hr : (getP h1 rid).state = 1) (hv : (getP h1 rid).value = some ws) :
    (thenP (g + 3) h1 rid (some (Cb.settleRes t)) (some (Cb.settleRej t))).1
      = _resolve (g + 1) (_resolve g (allocP h1) t ws) h1.promises.length ws := by
  rw [thenPFulfilled (g + 2) h1 rid ws _ _ hr hv]
  show runFw (g + 2) (allocP h1) ⟨some (Cb.settleRes t), some (Cb.settleRej t),
    h1.promises.length⟩ ws = _
  rw [runFwSome, invokeWSettleRes]

/-- Chaining `result.then(resolve, reject)` onto an already-rejected
returned promise forwards its reasons to the captured `reject`. -/
theorem chainRejected (g : Nat) (h1 : Heap) (rid t : Nat) (rs : List JSVal)
    (hr : (getP h1 rid).state = 2) (hv : (getP h1 rid).reason = some rs) :
    (thenP (g + 3) h1 rid (some (Cb.settleRes t)) (some (Cb.settleRej t))).1
      = _reject (g + 1) (_reject g (allocP h1) t rs) h1.promises.length rs := by
  rw [thenPRejected (g + 2) h1 rid rs _ _ hr hv]
  show runRw (g + 2) (allocP h1) ⟨some (Cb.settleRes t), some (Cb.settleRej t),
    h1.promises.length⟩ rs = _
  rw [runRwSome, invokeWSettleRej]

/-- Chaining onto an already-fulfilled returned promise whose captured
settle target `t` is fresh: the target ends up fulfilled with the
returned promise's payload. -/
theorem chainFulfilledOutcome (g : Nat) (h1 : Heap) (rid t : Nat) (ws : List JSVal)
    (hr : (getP h1 rid).state = 1) (hv : (getP h1 rid).value = some ws)
    (ht : getP h1 t = pendingObj) (htlt : t < h1.promises.length) :
    fulfilledWith (thenP (g + 4) h1 rid (some (Cb.settleRes t)) (some (Cb.settleRej t))).1
      t ws := by
  rw [chainFulfilled (g + 1) h1 rid t ws hr hv]
  have htA : getP (allocP h1) t = pendingObj := by
    rw [getPAlloc]
    exact ht
  rw [resolveFresh g (allocP h1) t ws htA]
  have hne1 : h1.promises.length ≠ t := ne_of_gt htlt
  have h2n : getP (setP (allocP h1) t ⟨1, some ws, none, []⟩) h1.promises.length
      = pendingObj := by
    rw [getPSetNe _ _ _ _ hne1, getPAlloc]
    exact getPOfLe h1 _ (Nat.le_refl _)
  rw [resolveFresh (g + 1) _ h1.promises.length ws h2n]
  simp only [fulfilledWith]
  have htlt2 : t < (allocP h1).promises.length := by
    rw [lenAllocP]
    omega
  rw [getPSetNe _ _ _ _ (ne_of_lt htlt), getPSetSelf _ _ _ htlt2]
  exact ⟨rfl, rfl⟩

/-- Chaining onto an already-rejected returned promise whose captured
settle target `t` is fresh: the target ends up rejected with the
returned promise's reasons. -/
theorem chainRejectedOutcome (g : Nat) (h1 : Heap) (rid t : Nat) (rs : List JSVal)
    (hr : (getP h1 rid).state = 2) (hv : (getP h1 rid).reason = some rs)
    (ht : getP h1 t = pendingObj) (htlt : t < h1.promises.length) :
    rejectedWith (thenP (g + 4) h1 rid (some (Cb.settleRes t)) (some (Cb.settleRej t))).1
      t rs := by
  rw [chainRejected (g + 1) h1 rid t rs hr hv]
  have htA : getP (allocP h1) t = pendingObj := by
    rw [getPAlloc]
    exact ht
  rw [rejectFresh g (allocP h1) t rs htA]
  have hne1 : h1.promises.length ≠ t := ne_of_gt htlt
  have h2n : getP (setP (allocP h1) t ⟨2, none, some rs, []⟩) h1.promises.length
      = pendingObj := by
    rw [getPSetNe _ _ _ _ hne1, getPAlloc]
    exact getPOfLe h1 _ (Nat.le_refl _)
  rw [rejectFresh (g + 1) _ h1.promises.length rs h2n]
  simp only [rejectedWith]
  have htlt2 : t < (allocP h1).promises.length := by
    rw [lenAllocP]
    omega
  rw [getPSetNe _ _ _ _ (ne_of_lt htlt), getPSetSelf _ _ _ htlt2]
  exact ⟨rfl, rfl⟩

/-- A pending promise holding exactly one chain handler (the
`result.then(resolve, reject)` registration): when it later fulfills,
the captured fresh target `t` is fulfilled with the same payload. -/
theorem pendingChainResolve (g : Nat) (hh : Heap) (rid t u : Nat) (ws : List JSVal)
    (hrec : getP hh rid
      = ⟨0, none, none, [⟨some (Cb.settleRes t), some (Cb.settleRej t), u⟩]⟩)
    (ht : getP hh t = pendingObj) (htlt : t < hh.promises.length)
    (hu : getP hh u = pendingObj)
    (hrt : t ≠ rid) (hut : u ≠ t) (hur : u ≠ rid) :
    fulfilledWith (_resolve (g + 4) hh rid ws) t ws := by
  rw [resolveStep (g + 3) hh rid ws, if_neg (by rw [hrec]; simp), hrec]
  show fulfilledWith (runFw (g + 3)
      (setP hh rid ⟨1, some ws, none, [⟨some (Cb.settleRes t), some (Cb.settleRej t), u⟩]⟩)
      ⟨some (Cb.settleRes t), some (Cb.settleRej t), u⟩ ws) t ws
  rw [runFwSome (g + 2)
    (setP hh rid ⟨1, some ws, none, [⟨some (Cb.settleRes t), some (Cb.settleRej t), u⟩]⟩)
    (Cb.settleRes t) (some (Cb.settleRej t)) u ws]
  rw [invokeWSettleRes (g + 1)
    (setP hh rid ⟨1, some ws, none, [⟨some (Cb.settleRes t), some (Cb.settleRej t), u⟩]⟩)
    t ws]
  show fulfilledWith (_resolve (g + 2)
    (_resolve (g + 1)
      (setP hh rid ⟨1, some ws, none, [⟨some (Cb.settleRes t), some (Cb.settleRej t), u⟩]⟩)
      t ws) u ws) t ws
  have hSt : getP
      (setP hh rid ⟨1, some ws, none, [⟨some (Cb.settleRes t), some (Cb.settleRej t), u⟩]⟩)
      t = pendingObj := by
    rw [getPSetNe _ _ _ _ hrt]
    exact ht
  rw [resolveFresh g _ t ws hSt]
  have hSu : getP (setP
      (setP hh rid ⟨1, some ws, none, [⟨some (Cb.settleRes t), some (Cb.settleRej t), u⟩]⟩)
      t ⟨1, some ws, none, []⟩) u = pendingObj := by
    rw [getPSetNe _ _ _ _ hut, getPSetNe _ _ _ _ hur]
    exact hu
  rw [resolveFresh (g + 1) _ u ws hSu]
  simp only [fulfilledWith]
  have htlt2 : t < ((setP hh rid
      ⟨1, some ws, none, [⟨some (Cb.settleRes t), some (Cb.settleRej t), u⟩]⟩).promises.length) := by
    rw [lenSetP]
    exact htlt
  rw [getPSetNe _ _ _ _ (Ne.symm hut), getPSetSelf _ _ _ htlt2]
  exact ⟨rfl, rfl⟩

/-- A pending promise holding exactly one chain handler: when it later
rejects, the captured fresh target `t` is rejected with the same
reasons. -/
theorem pendingChainReject (g : Nat) (hh : Heap) (rid t u : Nat) (rs : List JSVal)
    (hrec : getP hh rid
      = ⟨0, none, none, [⟨some (Cb.settleRes t), some (Cb.settleRej t), u⟩]⟩)
    (ht : getP hh t = pendingObj) (htlt : t < hh.promises.length)
    (hu : getP hh u = pendingObj)
    (hrt : t ≠ rid) (hut : u ≠ t) (hur : u ≠ rid) :
    rejectedWith (_reject (g + 4) hh rid rs) t rs := by
  rw [rejectStep (g + 3) hh rid rs, if_neg (by rw [hrec]; simp), hrec]
  show rejectedWith (runRw (g + 3)
      (setP hh rid ⟨2, none, some rs, [⟨some (Cb.settleRes t), some (Cb.settleRej t), u⟩]⟩)
      ⟨some (Cb.settleRes t), some (Cb.settleRej t), u⟩ rs) t rs
  rw [runRwSome (g + 2)
    (setP hh rid ⟨2, none, some rs, [⟨some (Cb.settleRes t), some (Cb.settleRej t), u⟩]⟩)
    (some (Cb.settleRes t)) (Cb.settleRej t) u rs]
  rw [invokeWSettleRej (g + 1)
    (setP hh rid ⟨2, none, some rs, [⟨some (Cb.settleRes t), some (Cb.settleRej t), u⟩]⟩)
    t rs]
  show rejectedWith (_reject (g + 2)
    (_reject (g + 1)
      (setP hh rid ⟨2, none, some rs, [⟨some (Cb.settleRes t), some (Cb.settleRej t), u⟩]⟩)
      t rs) u rs) t rs
  have hSt : getP
      (setP hh rid ⟨2, none, some rs, [⟨some (Cb.settleRes t), some (Cb.settleRej t), u⟩]⟩)
      t = pendingObj := by
    rw [getPSetNe _ _ _ _ hrt]
    exact ht
  rw [rejectFresh g _ t rs hSt]
  have hSu : getP (setP
      (setP hh rid ⟨2, none, some rs, [⟨some (Cb.settleRes t), some (Cb.settleRej t), u⟩]⟩)
      t ⟨2, none, some rs, []⟩) u = pendingObj := by
    rw [getPSetNe _ _ _ _ hut, getPSetNe _ _ _ _ hur]
    exact hu
  rw [rejectFresh (g + 1) _ u rs hSu]
  simp only [rejectedWith]
  have htlt2 : t < ((setP hh rid
      ⟨2, none, some rs, [⟨some (Cb.settleRes t), some (Cb.settleRej t), u⟩]⟩).promises.length) := by
    rw [lenSetP]
    exact htlt
  rw [getPSetNe _ _ _ _ (Ne.symm hut), getPSetSelf _ _ _ htlt2]
  exact ⟨rfl, rfl⟩

/-- C1: settle-once.  If a promise has already settled, any further
`resolve` or `reject` call leaves the whole heap unchanged (so state,
payload and reasons are untouched and no handler runs); a first
`resolve` (resp. `reject`) on a pending promise establishes state 1 with
the payload (resp. state 2 with the reasons), after which any further
`resolve` or `reject` call, with any arguments and any fuel, is again a
no-op on the whole heap. -/
theorem C1_settle_once (fuel f2 f3 : Nat) (h : Heap) (id : Nat)
    (args rs a2 r2 : List JSVal) :
    ((getP h id).state ≠ 0 → _resolve fuel h id args = h ∧ _reject fuel h id rs = h)
    ∧ ((getP h id).state = 0 → id < h.promises.length →
        (fulfilledWith (_resolve (fuel + 1) h id args) id args
          ∧ _resolve f2 (_resolve (fuel + 1) h id args) id a2 = _resolve (fuel + 1) h id args
          ∧ _reject f3 (_resolve (fuel + 1) h id args) id r2 = _resolve (fuel + 1) h id args)
        ∧ (rejectedWith (_reject (fuel + 1) h id rs) id rs
          ∧ _resolve f2 (_reject (fuel + 1) h id rs) id a2 = _reject (fuel + 1) h id rs
          ∧ _reject f3 (_reject (fuel + 1) h id rs) id r2 = _reject (fuel + 1) h id rs)) := by
  constructor
  · intro hs
    exact ⟨resolveSettled fuel h id args hs, rejectSettled fuel h id rs hs⟩
  · intro hp hlt
    have hrec := resolvePendingRecord fuel h id args hp hlt
    have hrecR := rejectPendingRecord fuel h id rs hp hlt
    have hstate1 : (getP (_resolve (fuel + 1) h id args) id).state = 1 := by rw [hrec]
    have hstate2 : (getP (_reject (fuel + 1) h id rs) id).state = 2 := by rw [hrecR]
    refine ⟨⟨⟨hstate1, by rw [hrec]⟩, ?_, ?_⟩, ⟨hstate2, by rw [hrecR]⟩, ?_, ?_⟩
    · exact resolveSettled f2 _ id a2 (by rw [hstate1]; exact one_ne_zero)
    · exact rejectSettled f3 _ id r2 (by rw [hstate1]; exact one_ne_zero)
    · exact resolveSettled f2 _ id a2 (by rw [hstate2]; exact two_ne_zero)
    · exact rejectSettled f3 _ id r2 (by rw [hstate2]; exact two_ne_zero)

/-- Witness for C1 at a concrete pending promise: the first resolve
fulfills it with the payload, and a later reject is a no-op. -/
theorem C1_settle_once_witness :
    fulfilledWith (_resolve 1 pendOne 0 [JSVal.num 7]) 0 [JSVal.num 7]
    ∧ _reject 5 (_resolve 1 pendOne 0 [JSVal.num 7]) 0 [JSVal.str "late"]
        = _resolve 1 pendOne 0 [JSVal.num 7] :=
  ⟨((C1_settle_once 0 5 5 pendOne 0 [JSVal.num 7] [] [] [JSVal.str "late"]).2 rfl
      (by decide)).1.1,
   ((C1_settle_once 0 5 5 pendOne 0 [JSVal.num 7] [] [] [JSVal.str "late"]).2 rfl
      (by decide)).1.2.2⟩

/-- C3 counterexample: `all` applied to the empty sequence does not
fulfill with the empty sequence — the constructed promise's executor
never runs `resolve`, so the result is still pending. -/
theorem C3_all_empty_not_fulfilled :
    ¬ fulfilledWith (allP 9 emptyHeap []).1 (allP 9 emptyHeap []).2 [] := by
  intro hful
  have h0 : (getP (allP 9 emptyHeap []).1 (allP 9 emptyHeap []).2).state = 0 := rfl
  rw [hful.1] at h0
  exact one_ne_zero h0

/-- C3 amended: `all` applied to an empty sequence of promises returns a
fresh promise that is still pending (with no payload and no handlers),
and since the loop registered no callback that could ever call `resolve`,
it never fulfills. -/
theorem C3_all_empty_pending (fuel : Nat) (h : Heap) :
    (allP fuel h []).2 = h.promises.length
    ∧ getP (allP fuel h []).1 h.promises.length = pendingObj := by
  constructor
  · rfl
  · show getP (allocCell (allocP h) 0) h.promises.length = pendingObj
    rw [getPAllocCell, getPAlloc, getPOfLe h _ (Nat.le_refl _)]

/-- C4 counterexample: after `resolve` on a pending promise with one
registered handler, the handler list is not cleared (the source's
`_resolve` has no clearing step), so it is not empty afterwards. -/
theorem C4_not_cleared :
    (getP (_resolve 3 clearScenario 0 [JSVal.num 5]) 0).handlers ≠ [] := by
  intro hc
  have hlen : (getP (_resolve 3 clearScenario 0 [JSVal.num 5]) 0).handlers.length = 1 := rfl
  rw [hc] at hlen
  exact absurd hlen (by decide)

/-- C4 amended: `resolve` on a pending promise sets `state = 1`, stores
the payload, dispatches every currently-registered handler's fulfillment
branch with the payload, in registration order (the left fold over the
handler list), and leaves `reason` and the handler list exactly as they
were — the handler list is not cleared; the retained handlers are simply
never invoked again because the promise is no longer pending. -/
theorem C4_resolve_dispatch (fuel : Nat) (h : Heap) (id : Nat) (args : List JSVal)
    (hp : (getP h id).state = 0) (hlt : id < h.promises.length) :
    getP (_resolve (fuel + 1) h id args) id
        = { getP h id with state := 1, value := some args }
    ∧ _resolve (fuel + 1) h id args
        = (getP h id).handlers.foldl (fun hh hd => runFw fuel hh hd args)
            (setP h id { getP h id with state := 1, value := some args }) :=
  ⟨resolvePendingRecord fuel h id args hp hlt,
   by rw [resolveStep, if_neg (by simp [hp])]⟩

/-- Witness for C4 at the concrete one-handler scenario. -/
theorem C4_resolve_dispatch_witness :
    getP (_resolve 3 clearScenario 0 [JSVal.num 5]) 0
      = { getP clearScenario 0 with state := 1, value := some [JSVal.num 5] } :=
  (C4_resolve_dispatch 2 clearScenario 0 [JSVal.num 5] rfl (by decide)).1

/-- C6: on three pending inputs A, B, C, `all([A, B, C])` with the
inputs fulfilling out of order (B first with a two-value payload, then
A, then C) leaves the result pending until the last input fulfills, and
then fulfills it with the array holding, at each index, the first value
of that input's payload — index order, not completion order. -/
theorem C6_all_index_order (va vb vb2 vc : JSVal) :
    (getP (_resolve 6 (_resolve 6 (allP 6 allIn [0, 1, 2]).1 1 [vb, vb2]) 0 [va])
        (allP 6 allIn [0, 1, 2]).2).state = 0
    ∧ fulfilledWith
        (_resolve 6
          (_resolve 6 (_resolve 6 (allP 6 allIn [0, 1, 2]).1 1 [vb, vb2]) 0 [va]) 2 [vc])
        (allP 6 allIn [0, 1, 2]).2
        [JSVal.arr [va, vb, vc]] := by
  have e1 : allP 6 allIn [0, 1, 2] = (allWired, 3) := rfl
  have e2 : _resolve 6 allWired 1 [vb, vb2] = allStepB vb vb2 := rfl
  have e3 : _resolve 6 (allStepB vb vb2) 0 [va] = allStepBA va vb vb2 := rfl
  have e4 : _resolve 6 (allStepBA va vb vb2) 2 [vc] = allStepBAC va vb vb2 vc := rfl
  simp only [e1, e2, e3, e4]
  exact ⟨rfl, rfl, rfl⟩

/-- C7: on two pending inputs, `race([A, B])` settles its result with
the outcome of whichever input settles first — in both orders and for
both settlement kinds — and the later settlement of the other input
leaves the result promise's object exactly unchanged. -/
theorem C7_race_first_wins (vs rs : List JSVal) :
    (fulfilledWith (_resolve 6 (raceP 6 raceIn [0, 1]).1 0 vs) (raceP 6 raceIn [0, 1]).2 vs
      ∧ getP (_reject 6 (_resolve 6 (raceP 6 raceIn [0, 1]).1 0 vs) 1 rs)
            (raceP 6 raceIn [0, 1]).2
          = getP (_resolve 6 (raceP 6 raceIn [0, 1]).1 0 vs) (raceP 6 raceIn [0, 1]).2
      ∧ fulfilledWith (_reject 6 (_resolve 6 (raceP 6 raceIn [0, 1]).1 0 vs) 1 rs)
          (raceP 6 raceIn [0, 1]).2 vs)
    ∧ (rejectedWith (_reject 6 (raceP 6 raceIn [0, 1]).1 1 rs) (raceP 6 raceIn [0, 1]).2 rs
      ∧ getP (_resolve 6 (_reject 6 (raceP 6 raceIn [0, 1]).1 1 rs) 0 vs)
            (raceP 6 raceIn [0, 1]).2
          = getP (_reject 6 (raceP 6 raceIn [0, 1]).1 1 rs) (raceP 6 raceIn [0, 1]).2
      ∧ rejectedWith (_resolve 6 (_reject 6 (raceP 6 raceIn [0, 1]).1 1 rs) 0 vs)
          (raceP 6 raceIn [0, 1]).2 rs) := by
  have e1 : raceP 6 raceIn [0, 1] = (raceWired, 2) := rfl
  have e2 : _resolve 6 raceWired 0 vs = raceResFirst vs := rfl
  have e3 : _reject 6 (raceResFirst vs) 1 rs = raceResThenRej vs rs := rfl
  have e4 : _reject 6 raceWired 1 rs = raceRejFirst rs := rfl
  have e5 : _resolve 6 (raceRejFirst rs) 0 vs = raceRejThenRes rs vs := rfl
  simp only [e1, e2, e3, e4, e5]
  exact ⟨⟨⟨rfl, rfl⟩, rfl, ⟨rfl, rfl⟩⟩, ⟨⟨rfl, rfl⟩, rfl, ⟨rfl, rfl⟩⟩⟩

/-- C8: a constructor executor that raises synchronously without having
settled the promise leaves construction total (no error propagates out
of the model's constructor) and rejects the fresh promise with the
raised error as its sole reason; and whenever the executor's own settle
calls have already settled the promise, the trailing `_reject(err)` of
the constructor's `catch` is a no-op on the whole heap.  The executor
runs exactly once, synchronously, by construction of `newPromise`. -/
theorem C8_executor_catch (fuel : Nat) (h : Heap) (e : JSVal) :
    ((newPromise (fuel + 1) h [] (some e)).2 = h.promises.length
      ∧ rejectedWith (newPromise (fuel + 1) h [] (some e)).1 h.promises.length [e])
    ∧ ∀ steps,
        settled (runExec (fuel + 1) (allocP h) h.promises.length steps) h.promises.length →
        (newPromise (fuel + 1) h steps (some e)).1
          = runExec (fuel + 1) (allocP h) h.promises.length steps := by
  constructor
  · refine ⟨rfl, ?_⟩
    have hpend : getP (allocP h) h.promises.length = pendingObj := by
      rw [getPAlloc, getPOfLe h _ (Nat.le_refl _)]
    have hlt : h.promises.length < (allocP h).promises.length := by
      rw [lenAllocP]
      exact Nat.lt_succ_self _
    show rejectedWith (_reject (fuel + 1) (allocP h) h.promises.length [e])
      h.promises.length [e]
    simp only [rejectedWith]
    rw [rejectFresh fuel (allocP h) _ [e] hpend, getPSetSelf _ _ _ hlt]
    exact ⟨rfl, rfl⟩
  · intro steps hs
    show _reject (fuel + 1) (runExec (fuel + 1) (allocP h) h.promises.length steps)
        h.promises.length [e] = _
    exact rejectSettled (fuel + 1) _ _ [e] (settledNeZero _ _ hs)

/-- Witness for C8: a throwing executor rejects the fresh promise with
the error as sole reason, and after an executor that already resolved,
the constructor's catch-handler changes nothing. -/
theorem C8_executor_catch_witness :
    rejectedWith (newPromise 1 emptyHeap [] (some (JSVal.str "boom"))).1 0 [JSVal.str "boom"]
    ∧ (newPromise 1 emptyHeap [ExecStep.res []] (some (JSVal.str "boom"))).1
        = runExec 1 (allocP emptyHeap) 0 [ExecStep.res []] :=
  ⟨(C8_executor_catch 0 emptyHeap (JSVal.str "boom")).1.2,
   (C8_executor_catch 0 emptyHeap (JSVal.str "boom")).2 [ExecStep.res []] (Or.inl rfl)⟩

/-- C2: `then` on a fulfilled receiver with payload `vs` invokes the
present `onFulfilled` callback with `vs` spread as its arguments (every
branch below is keyed on `f vs`, the callback applied to exactly the
stored payload).  If the callback's return value is not a promise, the
derived promise is resolved with the original payload `vs`, the return
value being discarded.  If the return value is a promise, the derived
promise settles with that promise's outcome: a freshly constructed
`Promise.resolve(...ws)`/`Promise.reject(...ws)` (as in the flattening
example `v => Promise.resolve(v * 2)`), an existing settled promise, or
an existing fresh pending promise, in which case a chain handler is
registered on it and the derived promise is fulfilled or rejected with
whatever that promise is eventually settled with. -/
theorem C2_then_fulfilled (fuel : Nat) (h : Heap) (d1 : Nat) (vs : List JSVal)
    (f : List JSVal → CbRes) (onR : Option Cb) (hful : fulfilledWith h d1 vs) :
    (∀ v, f vs = CbRes.ret v → (∀ rid, v ≠ JSVal.pref rid) →
      fulfilledWith (thenP (fuel + 6) h d1 (some (Cb.user f)) onR).1
        (thenP (fuel + 6) h d1 (some (Cb.user f)) onR).2 vs)
    ∧ (∀ ws, f vs = CbRes.newResolved ws →
      fulfilledWith (thenP (fuel + 6) h d1 (some (Cb.user f)) onR).1
        (thenP (fuel + 6) h d1 (some (Cb.user f)) onR).2 ws)
    ∧ (∀ ws, f vs = CbRes.newRejected ws →
      rejectedWith (thenP (fuel + 6) h d1 (some (Cb.user f)) onR).1
        (thenP (fuel + 6) h d1 (some (Cb.user f)) onR).2 ws)
    ∧ (∀ rid ws, f vs = CbRes.ret (JSVal.pref rid) →
      (getP h rid).state = 1 → (getP h rid).value = some ws →
      fulfilledWith (thenP (fuel + 6) h d1 (some (Cb.user f)) onR).1
        (thenP (fuel + 6) h d1 (some (Cb.user f)) onR).2 ws)
    ∧ (∀ rid ws, f vs = CbRes.ret (JSVal.pref rid) →
      (getP h rid).state = 2 → (getP h rid).reason = some ws →
      rejectedWith (thenP (fuel + 6) h d1 (some (Cb.user f)) onR).1
        (thenP (fuel + 6) h d1 (some (Cb.user f)) onR).2 ws)
    ∧ (∀ rid, f vs = CbRes.ret (JSVal.pref rid) → rid < h.promises.length →
      getP h rid = pendingObj →
      (getP (thenP (fuel + 6) h d1 (some (Cb.user f)) onR).1 rid).handlers
          = [⟨some (Cb.settleRes h.promises.length), some (Cb.settleRej h.promises.length),
              h.promises.length + 1⟩]
      ∧ (∀ g ws, fulfilledWith
          (_resolve (g + 4) (thenP (fuel + 6) h d1 (some (Cb.user f)) onR).1 rid ws)
          (thenP (fuel + 6) h d1 (some (Cb.user f)) onR).2 ws)
      ∧ (∀ g rs, rejectedWith
          (_reject (g + 4) (thenP (fuel + 6) h d1 (some (Cb.user f)) onR).1 rid rs)
          (thenP (fuel + 6) h d1 (some (Cb.user f)) onR).2 rs)) := by
  have hred := thenPFulfilled (fuel + 5) h d1 vs (some (Cb.user f)) onR hful.1 hful.2
  have hrun := runFwSome (fuel + 4) (allocP h) (Cb.user f) onR h.promises.length vs
  have hinv := invokeWUser (fuel + 3) (allocP h) f vs
  have hT2 : (thenP (fuel + 6) h d1 (some (Cb.user f)) onR).2 = h.promises.length := by
    rw [hred]
  have hfreshN : getP (allocP h) h.promises.length = pendingObj := by
    rw [getPAlloc]
    exact getPOfLe h _ (Nat.le_refl _)
  refine ⟨?_, ?_, ?_, ?_, ?_, ?_⟩
  · intro v hfv hnp
    rw [hred, hrun, hinv, hfv]
    have hres := resolveFresh (fuel + 3) (allocP h) h.promises.length vs hfreshN
    have hlen : h.promises.length < (allocP h).promises.length := by
      rw [lenAllocP]
      exact Nat.lt_succ_self _
    have hgoal : fulfilledWith (_resolve (fuel + 4) (allocP h) h.promises.length vs)
        h.promises.length vs := by
      simp only [fulfilledWith]
      rw [hres, getPSetSelf _ _ _ hlen]
      exact ⟨rfl, rfl⟩
    cases v with
    | pref rid => exact absurd rfl (hnp rid)
    | undef => exact hgoal
    | num m => exact hgoal
    | str s => exact hgoal
    | arr l => exact hgoal
  · intro ws hfv
    have hT1 : (thenP (fuel + 6) h d1 (some (Cb.user f)) onR).1
        = (thenP (fuel + 4)
            (_resolve (fuel + 3) (allocP (allocP h)) (allocP h).promises.length ws)
            (allocP h).promises.length
            (some (Cb.settleRes h.promises.length))
            (some (Cb.settleRej h.promises.length))).1 := by
      rw [hred, hrun, hinv, hfv]
    have hfresh2 : getP (allocP (allocP h)) (allocP h).promises.length = pendingObj := by
      rw [getPAlloc, getPAlloc]
      exact getPOfLe h _ (by rw [lenAllocP]; omega)
    have hres := resolveFresh (fuel + 2) (allocP (allocP h)) (allocP h).promises.length
      ws hfresh2
    rw [hT1, hT2, hres]
    apply chainFulfilledOutcome
    · rw [getPSetSelf]
      rw [lenAllocP, lenAllocP, lenAllocP]
      omega
    · rw [getPSetSelf]
      rw [lenAllocP, lenAllocP, lenAllocP]
      omega
    · rw [getPSetNe _ _ _ _ (by rw [lenAllocP]; omega), getPAlloc, getPAlloc]
      exact getPOfLe h _ (Nat.le_refl _)
    · rw [lenSetP, lenAllocP, lenAllocP]
      omega
  · intro ws hfv
    have hT1 : (thenP (fuel + 6) h d1 (some (Cb.user f)) onR).1
        = (thenP (fuel + 4)
            (_reject (fuel + 3) (allocP (allocP h)) (allocP h).promises.length ws)
            (allocP h).promises.length
            (some (Cb.settleRes h.promises.length))
            (some (Cb.settleRej h.promises.length))).1 := by
      rw [hred, hrun, hinv, hfv]
    have hfresh2 : getP (allocP (allocP h)) (allocP h).promises.length = pendingObj := by
      rw [getPAlloc, getPAlloc]
      exact getPOfLe h _ (by rw [lenAllocP]; omega)
    have hres := rejectFresh (fuel + 2) (allocP (allocP h)) (allocP h).promises.length
      ws hfresh2
    rw [hT1, hT2, hres]
    apply chainRejectedOutcome
    · rw [getPSetSelf]
      rw [lenAllocP, lenAllocP, lenAllocP]
      omega
    · rw [getPSetSelf]
      rw [lenAllocP, lenAllocP, lenAllocP]
      omega
    · rw [getPSetNe _ _ _ _ (by rw [lenAllocP]; omega), getPAlloc, getPAlloc]
      exact getPOfLe h _ (Nat.le_refl _)
    · rw [lenSetP, lenAllocP, lenAllocP]
      omega
  · intro rid ws hfv h1s h1v
    have hT1 : (thenP (fuel + 6) h d1 (some (Cb.user f)) onR).1
        = (thenP (fuel + 4) (allocP h) rid
            (some (Cb.settleRes h.promises.length))
            (some (Cb.settleRej h.promises.length))).1 := by
      rw [hred, hrun, hinv, hfv]
    rw [hT1, hT2]
    apply chainFulfilledOutcome
    · rw [getPAlloc]
      exact h1s
    · rw [getPAlloc]
      exact h1v
    · exact hfreshN
    · rw [lenAllocP]
      exact Nat.lt_succ_self _
  · intro rid ws hfv h1s h1v
    have hT1 : (thenP (fuel + 6) h d1 (some (Cb.user f)) onR).1
        = (thenP (fuel + 4) (allocP h) rid
            (some (Cb.settleRes h.promises.length))
            (some (Cb.settleRej h.promises.length))).1 := by
      rw [hred, hrun, hinv, hfv]
    rw [hT1, hT2]
    apply chainRejectedOutcome
    · rw [getPAlloc]
      exact h1s
    · rw [getPAlloc]
      exact h1v
    · exact hfreshN
    · rw [lenAllocP]
      exact Nat.lt_succ_self _
  · intro rid hfv hridlt hp
    have hT1 : (thenP (fuel + 6) h d1 (some (Cb.user f)) onR).1
        = (thenP (fuel + 4) (allocP h) rid
            (some (Cb.settleRes h.promises.length))
            (some (Cb.settleRej h.promises.length))).1 := by
      rw [hred, hrun, hinv, hfv]
    have hpend2 : (getP (allocP h) rid).state = 0 := by
      rw [getPAlloc, hp]
      rfl
    have hthen := thenPPending (fuel + 3) (allocP h) rid
      (some (Cb.settleRes h.promises.length)) (some (Cb.settleRej h.promises.length)) hpend2
    have hATrid : getP (allocP h) rid = pendingObj := by
      rw [getPAlloc]
      exact hp
    rw [hATrid, lenAllocP] at hthen
    have hridlt2 : rid < (allocP (allocP h)).promises.length := by
      rw [lenAllocP, lenAllocP]
      omega
    have hrec : getP (setP (allocP (allocP h)) rid
        { pendingObj with
            handlers := pendingObj.handlers ++
              [⟨some (Cb.settleRes h.promises.length), some (Cb.settleRej h.promises.length),
                h.promises.length + 1⟩] }) rid
        = ⟨0, none, none,
            [⟨some (Cb.settleRes h.promises.length), some (Cb.settleRej h.promises.length),
              h.promises.length + 1⟩]⟩ := by
      rw [getPSetSelf _ _ _ hridlt2]
      rfl
    have hgetn : getP (setP (allocP (allocP h)) rid
        { pendingObj with
            handlers := pendingObj.handlers ++
              [⟨some (Cb.settleRes h.promises.length), some (Cb.settleRej h.promises.length),
                h.promises.length + 1⟩] }) h.promises.length = pendingObj := by
      rw [getPSetNe _ _ _ _ (ne_of_gt hridlt), getPAlloc, getPAlloc]
      exact getPOfLe h _ (Nat.le_refl _)
    have hgetn1 : getP (setP (allocP (allocP h)) rid
        { pendingObj with
            handlers := pendingObj.handlers ++
              [⟨some (Cb.settleRes h.promises.length), some (Cb.settleRej h.promises.length),
                h.promises.length + 1⟩] }) (h.promises.length + 1) = pendingObj := by
      rw [getPSetNe _ _ _ _ (by omega), getPAlloc, getPAlloc]
      exact getPOfLe h _ (by omega)
    have hlenS : h.promises.length < (setP (allocP (allocP h)) rid
        { pendingObj with
            handlers := pendingObj.handlers ++
              [⟨some (Cb.settleRes h.promises.length), some (Cb.settleRej h.promises.length),
                h.promises.length + 1⟩] }).promises.length := by
      rw [lenSetP, lenAllocP, lenAllocP]
      omega
    refine ⟨?_, ?_, ?_⟩
    · rw [hT1, hthen, hrec]
    · intro g ws
      rw [hT1, hT2, hthen]
      exact pendingChainResolve g _ rid h.promises.length (h.promises.length + 1) ws
        hrec hgetn hlenS hgetn1 (ne_of_gt hridlt) (by omega) (by omega)
    · intro g rs
      rw [hT1, hT2, hthen]
      exact pendingChainReject g _ rid h.promises.length (h.promises.length + 1) rs
        hrec hgetn hlenS hgetn1 (ne_of_gt hridlt) (by omega) (by omega)

/-- Witness for C2, the spec's flattening example: a promise resolved
with 3, chained through `v => Promise.resolve(v * 2)`, yields a derived
promise that resolves with 6, not with a promise. -/
theorem C2_then_fulfilled_witness :
    fulfilledWith (thenP 6 flatScenario 0 (some (Cb.user doubleCb)) none).1
      (thenP 6 flatScenario 0 (some (Cb.user doubleCb)) none).2 [JSVal.num 6] :=
  (C2_then_fulfilled 0 flatScenario 0 [JSVal.num 3] doubleCb none ⟨rfl, rfl⟩).2.1
    [JSVal.num 6] rfl

/-- C5: `then` on a rejected receiver with reasons `rs`, symmetric to
the fulfilled branch.  With `onRejected` absent the derived promise is
rejected with `rs`.  With `onRejected` present it is invoked with `rs`
spread (every branch is keyed on `f rs`): a non-promise return value is
discarded and the derived promise is rejected with the original `rs`; a
raised error rejects the derived promise with that error as sole reason;
a returned promise drives the derived promise to that promise's own
eventual outcome, whether it is freshly constructed, already settled, or
still pending (chain registration). -/
theorem C5_then_rejected (fuel : Nat) (h : Heap) (d1 : Nat) (rs : List JSVal)
    (onF : Option Cb) (f : List JSVal → CbRes) (hrej : rejectedWith h d1 rs) :
    (rejectedWith (thenP (fuel + 6) h d1 onF none).1
      (thenP (fuel + 6) h d1 onF none).2 rs)
    ∧ (∀ v, f rs = CbRes.ret v → (∀ rid, v ≠ JSVal.pref rid) →
      rejectedWith (thenP (fuel + 6) h d1 onF (some (Cb.user f))).1
        (thenP (fuel + 6) h d1 onF (some (Cb.user f))).2 rs)
    ∧ (∀ e, f rs = CbRes.throwE e →
      rejectedWith (thenP (fuel + 6) h d1 onF (some (Cb.user f))).1
        (thenP (fuel + 6) h d1 onF (some (Cb.user f))).2 [e])
    ∧ (∀ ws, f rs = CbRes.newResolved ws →
      fulfilledWith (thenP (fuel + 6) h d1 onF (some (Cb.user f))).1
        (thenP (fuel + 6) h d1 onF (some (Cb.user f))).2 ws)
    ∧ (∀ ws, f rs = CbRes.newRejected ws →
      rejectedWith (thenP (fuel + 6) h d1 onF (some (Cb.user f))).1
        (thenP (fuel + 6) h d1 onF (some (Cb.user f))).2 ws)
    ∧ (∀ rid ws, f rs = CbRes.ret (JSVal.pref rid) →
      (getP h rid).state = 1 → (getP h rid).value = some ws →
      fulfilledWith (thenP (fuel + 6) h d1 onF (some (Cb.user f))).1
        (thenP (fuel + 6) h d1 onF (some (Cb.user f))).2 ws)
    ∧ (∀ rid ws, f rs = CbRes.ret (JSVal.pref rid) →
      (getP h rid).state = 2 → (getP h rid).reason = some ws →
      rejectedWith (thenP (fuel + 6) h d1 onF (some (Cb.user f))).1
        (thenP (fuel + 6) h d1 onF (some (Cb.user f))).2 ws)
    ∧ (∀ rid, f rs = CbRes.ret (JSVal.pref rid) → rid < h.promises.length →
      getP h rid = pendingObj →
      (getP (thenP (fuel + 6) h d1 onF (some (Cb.user f))).1 rid).handlers
          = [⟨some (Cb.settleRes h.promises.length), some (Cb.settleRej h.promises.length),
              h.promises.length + 1⟩]
      ∧ (∀ g ws, fulfilledWith
          (_resolve (g + 4) (thenP (fuel + 6) h d1 onF (some (Cb.user f))).1 rid ws)
          (thenP (fuel + 6) h d1 onF (some (Cb.user f))).2 ws)
      ∧ (∀ g rs2, rejectedWith
          (_reject (g + 4) (thenP (fuel + 6) h d1 onF (some (Cb.user f))).1 rid rs2)
          (thenP (fuel + 6) h d1 onF (some (Cb.user f))).2 rs2)) := by
  have hred0 := thenPRejected (fuel + 5) h d1 rs onF none hrej.1 hrej.2
  have hred := thenPRejected (fuel + 5) h d1 rs onF (some (Cb.user f)) hrej.1 hrej.2
  have hrun := runRwSome (fuel + 4) (allocP h) onF (Cb.user f) h.promises.length rs
  have hinv := invokeWUser (fuel + 3) (allocP h) f rs
  have hT2 : (thenP (fuel + 6) h d1 onF (some (Cb.user f))).2 = h.promises.length := by
    rw [hred]
  have hfreshN : getP (allocP h) h.promises.length = pendingObj := by
    rw [getPAlloc]
    exact getPOfLe h _ (Nat.le_refl _)
  have hlenA : h.promises.length < (allocP h).promises.length := by
    rw [lenAllocP]
    exact Nat.lt_succ_self _
  have hrejGoal : rejectedWith (_reject (fuel + 4) (allocP h) h.promises.length rs)
      h.promises.length rs := by
    simp only [rejectedWith]
    rw [rejectFresh (fuel + 3) (allocP h) h.promises.length rs hfreshN,
      getPSetSelf _ _ _ hlenA]
    exact ⟨rfl, rfl⟩
  refine ⟨?_, ?_, ?_, ?_, ?_, ?_, ?_, ?_⟩
  · rw [hred0]
    have hrun0 := runRwNone (fuel + 4) (allocP h) onF h.promises.length rs
    rw [hrun0]
    exact hrejGoal
  · intro v hfv hnp
    rw [hred, hrun, hinv, hfv]
    cases v with
    | pref rid => exact absurd rfl (hnp rid)
    | undef => exact hrejGoal
    | num m => exact hrejGoal
    | str s => exact hrejGoal
    | arr l => exact hrejGoal
  · intro e hfv
    rw [hred, hrun, hinv, hfv]
    show rejectedWith (_reject (fuel + 4) (allocP h) h.promises.length [e])
      h.promises.length [e]
    simp only [rejectedWith]
    rw [rejectFresh (fuel + 3) (allocP h) h.promises.length [e] hfreshN,
      getPSetSelf _ _ _ hlenA]
    exact ⟨rfl, rfl⟩
  · intro ws hfv
    have hT1 : (thenP (fuel + 6) h d1 onF (some (Cb.user f))).1
        = (thenP (fuel + 4)
            (_resolve (fuel + 3) (allocP (allocP h)) (allocP h).promises.length ws)
            (allocP h).promises.length
            (some (Cb.settleRes h.promises.length))
            (some (Cb.settleRej h.promises.length))).1 := by
      rw [hred, hrun, hinv, hfv]
    have hfresh2 : getP (allocP (allocP h)) (allocP h).promises.length = pendingObj := by
      rw [getPAlloc, getPAlloc]
      exact getPOfLe h _ (by rw [lenAllocP]; omega)
    have hres := resolveFresh (fuel + 2) (allocP (allocP h)) (allocP h).promises.length
      ws hfresh2
    rw [hT1, hT2, hres]
    apply chainFulfilledOutcome
    · rw [getPSetSelf]
      rw [lenAllocP, lenAllocP, lenAllocP]
      omega
    · rw [getPSetSelf]
      rw [lenAllocP, lenAllocP, lenAllocP]
      omega
    · rw [getPSetNe _ _ _ _ (by rw [lenAllocP]; omega), getPAlloc, getPAlloc]
      exact getPOfLe h _ (Nat.le_refl _)
    · rw [lenSetP, lenAllocP, lenAllocP]
      omega
  · intro ws hfv
    have hT1 : (thenP (fuel + 6) h d1 onF (some (Cb.user f))).1
        = (thenP (fuel + 4)
            (_reject (fuel + 3) (allocP (allocP h)) (allocP h).promises.length ws)
            (allocP h).promises.length
            (some (Cb.settleRes h.promises.length))
            (some (Cb.settleRej h.promises.length))).1 := by
      rw [hred, hrun, hinv, hfv]
    have hfresh2 : getP (allocP (allocP h)) (allocP h).promises.length = pendingObj := by
      rw [getPAlloc, getPAlloc]
      exact getPOfLe h _ (by rw [lenAllocP]; omega)
    have hres := rejectFresh (fuel + 2) (allocP (allocP h)) (allocP h).promises.length
      ws hfresh2
    rw [hT1, hT2, hres]
    apply chainRejectedOutcome
    · rw [getPSetSelf]
      rw [lenAllocP, lenAllocP, lenAllocP]
      omega
    · rw [getPSetSelf]
      rw [lenAllocP, lenAllocP, lenAllocP]
      omega
    · rw [getPSetNe _ _ _ _ (by rw [lenAllocP]; omega), getPAlloc, getPAlloc]
      exact getPOfLe h _ (Nat.le_refl _)
    · rw [lenSetP, lenAllocP, lenAllocP]
      omega
  · intro rid ws hfv h1s h1v
    have hT1 : (thenP (fuel + 6) h d1 onF (some (Cb.user f))).1
        = (thenP (fuel + 4) (allocP h) rid
            (some (Cb.settleRes h.promises.length))
            (some (Cb.settleRej h.promises.length))).1 := by
      rw [hred, hrun, hinv, hfv]
    rw [hT1, hT2]
    apply chainFulfilledOutcome
    · rw [getPAlloc]
      exact h1s
    · rw [getPAlloc]
      exact h1v
    · exact hfreshN
    · exact hlenA
  · intro rid ws hfv h1s h1v
    have hT1 : (thenP (fuel + 6) h d1 onF (some (Cb.user f))).1
        = (thenP (fuel + 4) (allocP h) rid
            (some (Cb.settleRes h.promises.length))
            (some (Cb.settleRej h.promises.length))).1 := by
      rw [hred, hrun, hinv, hfv]
    rw [hT1, hT2]
    apply chainRejectedOutcome
    · rw [getPAlloc]
      exact h1s
    · rw [getPAlloc]
      exact h1v
    · exact hfreshN
    · exact hlenA
  · intro rid hfv hridlt hp
    have hT1 : (thenP (fuel + 6) h d1 onF (some (Cb.user f))).1
        = (thenP (fuel + 4) (allocP h) rid
            (some (Cb.settleRes h.promises.length))
            (some (Cb.settleRej h.promises.length))).1 := by
      rw [hred, hrun, hinv, hfv]
    have hpend2 : (getP (allocP h) rid).state = 0 := by
      rw [getPAlloc, hp]
      rfl
    have hthen := thenPPending (fuel + 3) (allocP h) rid
      (some (Cb.settleRes h.promises.length)) (some (Cb.settleRej h.promises.length)) hpend2
    have hATrid : getP (allocP h) rid = pendingObj := by
      rw [getPAlloc]
      exact hp
    rw [hATrid, lenAllocP] at hthen
    have hridlt2 : rid < (allocP (allocP h)).promises.length := by
      rw [lenAllocP, lenAllocP]
      omega
    have hrec : getP (setP (allocP (allocP h)) rid
        { pendingObj with
            handlers := pendingObj.handlers ++
              [⟨some (Cb.settleRes h.promises.length), some (Cb.settleRej h.promises.length),
                h.promises.length + 1⟩] }) rid
        = ⟨0, none, none,
            [⟨some (Cb.settleRes h.promises.length), some (Cb.settleRej h.promises.length),
              h.promises.length + 1⟩]⟩ := by
      rw [getPSetSelf _ _ _ hridlt2]
      rfl
    have hgetn : getP (setP (allocP (allocP h)) rid
        { pendingObj with
            handlers := pendingObj.handlers ++
              [⟨some (Cb.settleRes h.promises.length), some (Cb.settleRej h.promises.length),
                h.promises.length + 1⟩] }) h.promises.length = pendingObj := by
      rw [getPSetNe _ _ _ _ (ne_of_gt hridlt), getPAlloc, getPAlloc]
      exact getPOfLe h _ (Nat.le_refl _)
    have hgetn1 : getP (setP (allocP (allocP h)) rid
        { pendingObj with
            handlers := pendingObj.handlers ++
              [⟨some (Cb.settleRes h.promises.length), some (Cb.settleRej h.promises.length),
                h.promises.length + 1⟩] }) (h.promises.length + 1) = pendingObj := by
      rw [getPSetNe _ _ _ _ (by omega), getPAlloc, getPAlloc]
      exact getPOfLe h _ (by omega)
    have hlenS : h.promises.length < (setP (allocP (allocP h)) rid
        { pendingObj with
            handlers := pendingObj.handlers ++
              [⟨some (Cb.settleRes h.promises.length), some (Cb.settleRej h.promises.length),
                h.promises.length + 1⟩] }).promises.length := by
      rw [lenSetP, lenAllocP, lenAllocP]
      omega
    refine ⟨?_, ?_, ?_⟩
    · rw [hT1, hthen, hrec]
    · intro g ws
      rw [hT1, hT2, hthen]
      exact pendingChainResolve g _ rid h.promises.length (h.promises.length + 1) ws
        hrec hgetn hlenS hgetn1 (ne_of_gt hridlt) (by omega) (by omega)
    · intro g rs2
      rw [hT1, hT2, hthen]
      exact pendingChainReject g _ rid h.promises.length (h.promises.length + 1) rs2
        hrec hgetn hlenS hgetn1 (ne_of_gt hridlt) (by omega) (by omega)

/-- Witness for C5: `then` with no rejection callback on a promise
rejected with `"err"` yields a derived promise rejected with `"err"`. -/
theorem C5_then_rejected_witness :
    rejectedWith (thenP 6 rejScenario 0 none none).1
      (thenP 6 rejScenario 0 none none).2 [JSVal.str "err"] :=
  (C5_then_rejected 0 rejScenario 0 [JSVal.str "err"] none
    (fun _ => CbRes.ret JSVal.undef) ⟨rfl, rfl⟩).1

/-- C10 counterexample: with the empty (falsy) url, `fetch` still sets
`opts.url`, but `request` returns at its guard before normalising, so
`opts.method` is not overwritten with `"GET"` as the claim states, and
the promise is rejected early. -/
theorem C10_empty_url_not_normalised :
    (fetch "" ({} : ReqOpts)).1.method = none
    ∧ (fetch "" ({} : ReqOpts)).1.url = some ""
    ∧ (fetch "" ({} : ReqOpts)).2 = some "No url parameter specified in #request" :=
  ⟨rfl, rfl, rfl⟩

/-- C10 amended: `fetch url opts` always stores `url` into the caller's
options record; when `url` is truthy (non-empty), `request` then — still
synchronously, before `fetch` returns — overwrites `method` with its
upper-cased trimmed value (or `"GET"` when absent) and fills `timeout`,
`readTimeout`, `followRedirect`, `headers`, `json` and `fullResponse`
with their defaults when absent; when `url` is falsy, `request` rejects
early with its no-url message and the remaining fields are left
untouched. -/
theorem C10_fetch_mutates (url : String) (opts : ReqOpts) :
    (fetch url opts).1.url = some url
    ∧ (url ≠ "" →
        (fetch url opts).1.method = some (match opts.method with
          | none => "GET"
          | some s => s.toUpper.trim)
        ∧ (fetch url opts).1.timeout = some (opts.timeout.getD 0)
        ∧ (fetch url opts).1.readTimeout = some (opts.readTimeout.getD (opts.timeout.getD 0))
        ∧ (fetch url opts).1.followRedirect = some (opts.followRedirect.getD true)
        ∧ (fetch url opts).1.headers = some (opts.headers.getD [])
        ∧ (fetch url opts).1.json = some (opts.json.getD false)
        ∧ (fetch url opts).1.fullResponse = some (opts.fullResponse.getD false)
        ∧ (fetch url opts).2 = none)
    ∧ (url = "" →
        (fetch url opts).1 = { opts with url := some "" }
        ∧ (fetch url opts).2 = some "No url parameter specified in #request") := by
  refine ⟨?_, ?_, ?_⟩
  · by_cases hu : url = "" <;> simp [fetch, request, urlFalsy, hu]
  · intro hu
    simp [fetch, request, urlFalsy, hu]
  · intro hu
    subst hu
    simp [fetch, request, urlFalsy]

/-- Witness for C10 with a truthy url and empty options: the url is
stored, the method defaults to GET and redirects are followed. -/
theorem C10_fetch_mutates_witness :
    (fetch "hi" ({} : ReqOpts)).1.url = some "hi"
    ∧ (fetch "hi" ({} : ReqOpts)).1.method = some "GET"
    ∧ (fetch "hi" ({} : ReqOpts)).1.followRedirect = some true :=
  ⟨(C10_fetch_mutates "hi" {}).1,
   ((C10_fetch_mutates "hi" {}).2.1 (by decide)).1,
   ((C10_fetch_mutates "hi" {}).2.1 (by decide)).2.2.2.1⟩

end ZRequest
